import Mathlib

/-!
Verification of the EaselJS display-list engine against its specification.

Each section shallowly embeds one part of the JavaScript source:

* `Easel.Container` — the Group/child-list operations of
  `src/src/easeljs/display/Container.js` (`addChild`, `removeChild`,
  `removeChildAt`, `getObjectsUnderPoint`, `getObjectUnderPoint`);
* `Easel.Matrix` — the `easel.Matrix2D` operations of `src/unnamed/part_000`
  (`invert`, `clone`, `appendProperties`, `prependProperties`), with JS
  numbers modelled as exact rationals extended by NaN/±Infinity;
* `Easel.Cache` — the `easel.DisplayObject` caching operations of
  `src/unnamed/part_002` (`cache`, `updateCache`, `uncache`), with the
  canvas context modelled as a trace of surface operations;
* `Easel.Gfx` — the `easel.Graphics` deferred command buffer of
  `src/unnamed/part_000`;
* `Easel.Seq` — the `easel.BitmapSequence` frame-advance state machine of
  `src/src/easeljs/display/BitmapSequence.js`.

JavaScript truthiness on optional strings (null / undefined / "" are falsy)
is modelled by `jsTruthyStr`; JS `%` on integers by `Int.tmod`; JS `x/y|0`
by `Int.tdiv`.
-/

namespace Easel

/-- JS truthiness of a nullable string: null/undefined and "" are falsy. -/
def jsTruthyStr : Option String → Bool
  | none => false
  | some s => s ≠ ""

lemma jsTruthyStr_iff (o : Option String) :
    jsTruthyStr o = true ↔ o ≠ none ∧ o ≠ some "" := by
  cases o with
  | none => simp [jsTruthyStr]
  | some s => simp [jsTruthyStr]

namespace Container

/-- The display-list world: every node is identified by a natural number.
`childrenOf g` is the `children` array of the Group `g`; `parentOf n` is the
`parent` back-reference of the node `n` (`none` models JS `null`). -/
structure World where
  childrenOf : ℕ → List ℕ
  parentOf : ℕ → Option ℕ

/-- JS `Array.prototype.indexOf`: index of the first occurrence, `-1` if the
element is absent. -/
def jsIndexOf (x : ℕ) : List ℕ → ℤ
  | [] => -1
  | y :: ys =>
    if y = x then 0
    else
      let r := jsIndexOf x ys
      if r = -1 then -1 else r + 1

/-- `easel.Container.prototype.removeChildAt`, single-index case
(Container.js lines 209-213): out-of-range index returns `false` with no
mutation; otherwise the child at the index gets `parent = null` and is
spliced out, returning `true`. -/
def removeChildAt (w : World) (g : ℕ) (index : ℤ) : World × Bool :=
  let l := w.childrenOf g
  if index < 0 ∨ index > (l.length : ℤ) - 1 then (w, false)
  else
    let n := index.toNat
    let w1 : World :=
      match l.get? n with
      | some child => { w with parentOf := fun x => if x = child then none else w.parentOf x }
      | none => w
    ({ w1 with childrenOf := fun h => if h = g then l.eraseIdx n else w1.childrenOf h }, true)

/-- `easel.Container.prototype.removeChild`, single-child case
(Container.js line 189): delegates to `removeChildAt(indexOf(child))`. -/
def removeChild (w : World) (g : ℕ) (child : ℕ) : World × Bool :=
  removeChildAt w g (jsIndexOf child (w.childrenOf g))

/-- `easel.Container.prototype.addChild`, single-child case (Container.js
lines 145-148): a child with a parent is first removed from it, then its
parent is set to the receiver and it is pushed onto the child list. -/
def addChild (w : World) (g : ℕ) (child : ℕ) : World :=
  let w1 : World :=
    match w.parentOf child with
    | some p => (removeChild w p child).1
    | none => w
  { childrenOf := fun h => if h = g then w1.childrenOf g ++ [child] else w1.childrenOf h,
    parentOf := fun x => if x = child then some g else w1.parentOf x }

/-- The comparator `function(a, b) { return b-a; }` passed to `sort` in the
multi-index `removeChildAt` orders the indices descending. -/
def descSort (l : List ℤ) : List ℤ :=
  l.insertionSort (fun a b => b ≤ a)

/-- `easel.Container.prototype.removeChildAt`, multi-index case
(Container.js lines 200-208): copies the arguments, sorts them descending,
and removes each in turn; `good = good && this.removeChildAt(a[i])`
short-circuits, so once a removal fails the remaining ones are skipped.
Models calls with at least one argument (for a single argument this agrees
with `removeChildAt`). -/
def removeChildAtMany (w : World) (g : ℕ) (idxs : List ℤ) : World × Bool :=
  (descSort idxs).foldl
    (fun acc i =>
      if acc.2 then removeChildAt acc.1 g i else (acc.1, false))
    (w, true)

/-- Single-ownership invariant of the display list: the parent back-reference
of every listed child points at the owning Group, every parented node occurs
in its parent's list, and no child list has duplicates. -/
def Inv (w : World) : Prop :=
  (∀ g n, n ∈ w.childrenOf g → w.parentOf n = some g) ∧
  (∀ n g, w.parentOf n = some g → n ∈ w.childrenOf g) ∧
  (∀ g, (w.childrenOf g).Nodup)

lemma jsIndexOf_spec (x : ℕ) (l : List ℕ) (h : x ∈ l) :
    ∃ n : ℕ, jsIndexOf x l = (n : ℤ) ∧ n < l.length ∧
      l.get? n = some x ∧ l.eraseIdx n = l.erase x := by
  induction l with
  | nil => cases h
  | cons y ys ih =>
    by_cases hy : y = x
    · refine ⟨0, by simp [jsIndexOf, hy], by simp, by simp [hy], ?_⟩
      subst hy
      simp [List.eraseIdx]
    · have hx : x ∈ ys := by
        rcases List.mem_cons.mp h with h' | h'
        · exact absurd h'.symm hy
        · exact h'
      obtain ⟨n, h1, h2, h3, h4⟩ := ih hx
      refine ⟨n + 1, ?_, by simpa using Nat.succ_lt_succ h2, by simpa using h3, ?_⟩
      · have hne : ¬((n : ℤ) = -1) := by omega
        simp [jsIndexOf, hy, h1, hne]
      · have : (y :: ys).erase x = y :: ys.erase x := by
          simp [List.erase_cons, hy]
        simp [List.eraseIdx, h4, this]

lemma removeChild_spec (w : World) (g c : ℕ) (hmem : c ∈ w.childrenOf g) :
    (removeChild w g c).2 = true ∧
    (removeChild w g c).1.childrenOf g = (w.childrenOf g).erase c ∧
    (∀ h, h ≠ g → (removeChild w g c).1.childrenOf h = w.childrenOf h) ∧
    (removeChild w g c).1.parentOf c = none ∧
    (∀ x, x ≠ c → (removeChild w g c).1.parentOf x = w.parentOf x) := by
  obtain ⟨n, h1, h2, h3, h4⟩ := jsIndexOf_spec c _ hmem
  have hcond : ¬((n : ℤ) < 0 ∨ (n : ℤ) > ((w.childrenOf g).length : ℤ) - 1) := by omega
  unfold removeChild removeChildAt
  rw [h1, if_neg hcond]
  simp only [Int.toNat_natCast, h3, h4]
  refine ⟨by trivial, by simp, fun h hh => by simp [hh], by simp, fun x hx => by simp [hx]⟩

lemma addChild_eq_of_parent_none (w : World) (B c : ℕ) (hc : w.parentOf c = none) :
    addChild w B c =
      { childrenOf := fun h => if h = B then w.childrenOf B ++ [c] else w.childrenOf h,
        parentOf := fun x => if x = c then some B else w.parentOf x } := by
  unfold addChild
  rw [hc]

lemma addChild_eq_of_parent_some (w : World) (B c p : ℕ) (hc : w.parentOf c = some p) :
    addChild w B c =
      { childrenOf := fun h => if h = B then (removeChild w p c).1.childrenOf B ++ [c]
          else (removeChild w p c).1.childrenOf h,
        parentOf := fun x => if x = c then some B else (removeChild w p c).1.parentOf x } := by
  unfold addChild
  rw [hc]

/-- C1: `B.addChild(c)` on a child currently owned by Group `A` removes `c`
from `A`'s child list (its length drops by one), appends `c` at the end of
`B`'s child list, sets `c.parent = B`, and preserves the single-ownership
invariant (`addChild` preserves `Inv` for every input satisfying it). -/
theorem addChild_moves_child (w : World) (A B c : ℕ) (hInv : Inv w) :
    Inv (addChild w B c) ∧
    (w.parentOf c = some A → A ≠ B →
      ((addChild w B c).childrenOf A).length + 1 = (w.childrenOf A).length ∧
      (addChild w B c).childrenOf B = w.childrenOf B ++ [c] ∧
      (addChild w B c).parentOf c = some B) := by
  obtain ⟨h1, h2, h3⟩ := hInv
  cases hc : w.parentOf c with
  | none =>
    have hcnot : ∀ g, c ∉ w.childrenOf g := by
      intro g hg
      have := h1 g c hg
      rw [hc] at this
      cases this
    rw [addChild_eq_of_parent_none w B c hc]
    refine ⟨⟨?_, ?_, ?_⟩, ?_⟩
    · intro g n hn
      dsimp at hn ⊢
      by_cases hg : g = B
      · subst hg
        rw [if_pos rfl] at hn
        rcases List.mem_append.mp hn with hn' | hn'
        · have hne : n ≠ c := fun he => hcnot g (he ▸ hn')
          rw [if_neg hne]
          exact h1 g n hn'
        · have : n = c := by simpa using hn'
          subst this
          rw [if_pos rfl]
      · rw [if_neg hg] at hn
        have hne : n ≠ c := fun he => hcnot g (he ▸ hn)
        rw [if_neg hne]
        exact h1 g n hn
    · intro n g hn
      dsimp at hn ⊢
      by_cases hnc : n = c
      · subst hnc
        rw [if_pos rfl] at hn
        have hgB : g = B := by simpa using hn.symm
        subst hgB
        simp
      · rw [if_neg hnc] at hn
        have := h2 n g hn
        by_cases hg : g = B
        · subst hg
          simp [this]
        · simpa [hg] using this
    · intro g
      dsimp
      by_cases hg : g = B
      · subst hg
        rw [if_pos rfl, List.nodup_append]
        exact ⟨h3 g, by simp, by intro a ha hb; simp at hb; exact hcnot g (hb ▸ ha)⟩
      · rw [if_neg hg]
        exact h3 g
    · intro hpc
      simp at hpc
  | some p =>
    have hmem : c ∈ w.childrenOf p := h2 c p hc
    obtain ⟨_, hrg, hrh, hrc, hrx⟩ := removeChild_spec w p c hmem
    have hw1nodup : ∀ g, ((removeChild w p c).1.childrenOf g).Nodup := by
      intro g
      by_cases hg : g = p
      · subst hg
        rw [hrg]
        exact (h3 g).erase c
      · rw [hrh g hg]
        exact h3 g
    have hw1notc : ∀ g, c ∉ (removeChild w p c).1.childrenOf g := by
      intro g hg
      by_cases hgp : g = p
      · subst hgp
        rw [hrg] at hg
        exact absurd (((h3 g).mem_erase_iff.mp hg).1) (by simp)
      · rw [hrh g hgp] at hg
        have := h1 g c hg
        rw [hc] at this
        exact hgp (by simpa using this.symm)
    have hw1mem : ∀ g n, n ∈ (removeChild w p c).1.childrenOf g → n ∈ w.childrenOf g := by
      intro g n hn
      by_cases hgp : g = p
      · subst hgp
        rw [hrg] at hn
        exact List.mem_of_mem_erase hn
      · rwa [hrh g hgp] at hn
    rw [addChild_eq_of_parent_some w B c p hc]
    refine ⟨⟨?_, ?_, ?_⟩, ?_⟩
    · intro g n hn
      dsimp at hn ⊢
      by_cases hg : g = B
      · subst hg
        rw [if_pos rfl] at hn
        rcases List.mem_append.mp hn with hn' | hn'
        · have hne : n ≠ c := fun he => hw1notc g (he ▸ hn')
          rw [if_neg hne, hrx n hne]
          exact h1 g n (hw1mem g n hn')
        · have : n = c := by simpa using hn'
          subst this
          rw [if_pos rfl]
      · rw [if_neg hg] at hn
        have hne : n ≠ c := fun he => hw1notc g (he ▸ hn)
        rw [if_neg hne, hrx n hne]
        exact h1 g n (hw1mem g n hn)
    · intro n g hn
      dsimp at hn ⊢
      by_cases hnc : n = c
      · subst hnc
        rw [if_pos rfl] at hn
        have hgB : g = B := by simpa using hn.symm
        subst hgB
        simp
      · rw [if_neg hnc] at hn
        rw [hrx n hnc] at hn
        have hng := h2 n g hn
        have hn1 : n ∈ (removeChild w p c).1.childrenOf g := by
          by_cases hgp : g = p
          · subst hgp
            rw [hrg]
            exact (h3 g).mem_erase_iff.mpr ⟨hnc, hng⟩
          · rwa [hrh g hgp]
        by_cases hg : g = B
        · subst hg
          simp [hn1]
        · simpa [hg] using hn1
    · intro g
      dsimp
      by_cases hg : g = B
      · subst hg
        rw [if_pos rfl, List.nodup_append]
        exact ⟨hw1nodup g, by simp, by intro a ha hb; simp at hb; exact hw1notc g (hb ▸ ha)⟩
      · rw [if_neg hg]
        exact hw1nodup g
    · intro hpc hAB
      have hpA : p = A := by simpa using hpc
      subst hpA
      refine ⟨?_, ?_, ?_⟩
      · dsimp
        rw [if_neg hAB, hrg, List.length_erase_of_mem hmem]
        have : 0 < (w.childrenOf p).length := List.length_pos_of_mem hmem
        omega
      · dsimp
        rw [if_pos rfl, hrh B (fun he => hAB he.symm)]
      · dsimp
        rw [if_pos rfl]

/-- C8: a single out-of-range index (negative or at least the child count)
makes `removeChildAt` return `false` instead of throwing, leaving the whole
world — in particular the Group's child list — untouched. -/
theorem removeChildAt_out_of_range (w : World) (g : ℕ) (i : ℤ)
    (h : i < 0 ∨ ((w.childrenOf g).length : ℤ) ≤ i) :
    removeChildAt w g i = (w, false) := by
  unfold removeChildAt
  rw [if_pos (by omega)]

/-- A concrete world for witnesses: Group 0 has children 10, 11, 12; Group 1
is empty. -/
def w0 : World :=
  { childrenOf := fun g => if g = 0 then [10, 11, 12] else [],
    parentOf := fun n => if 10 ≤ n ∧ n ≤ 12 then some 0 else none }

lemma w0_childrenOf (g : ℕ) : w0.childrenOf g = if g = 0 then [10, 11, 12] else [] := rfl

lemma w0_parentOf (n : ℕ) : w0.parentOf n = if 10 ≤ n ∧ n ≤ 12 then some 0 else none := rfl

lemma w0_inv : Inv w0 := by
  refine ⟨?_, ?_, ?_⟩
  · intro g n hn
    rw [w0_childrenOf] at hn
    rw [w0_parentOf]
    by_cases hg : g = 0
    · subst hg
      rw [if_pos rfl] at hn
      fin_cases hn <;> simp
    · rw [if_neg hg] at hn
      cases hn
  · intro n g hn
    rw [w0_parentOf] at hn
    rw [w0_childrenOf]
    by_cases hr : 10 ≤ n ∧ n ≤ 12
    · rw [if_pos hr] at hn
      have hg : g = 0 := by simpa using hn.symm
      subst hg
      rw [if_pos rfl]
      rcases hr with ⟨ha, hb⟩
      interval_cases n <;> simp
    · rw [if_neg hr] at hn
      cases hn
  · intro g
    rw [w0_childrenOf]
    by_cases hg : g = 0 <;> simp [hg]

/-- Witness for C1: moving child 10 from Group 0 to Group 1 in the concrete
world `w0`. -/
theorem addChild_moves_child_witness :
    Inv (addChild w0 1 10) ∧
    ((addChild w0 1 10).childrenOf 0).length + 1 = (w0.childrenOf 0).length ∧
    (addChild w0 1 10).childrenOf 1 = w0.childrenOf 1 ++ [10] ∧
    (addChild w0 1 10).parentOf 10 = some 1 := by
  have h := addChild_moves_child w0 0 1 10 w0_inv
  exact ⟨h.1, h.2 (by rw [w0_parentOf]; simp) (by decide)⟩

/-- Witness for C8: removing at index 5 from the 3-child Group 0 of `w0`
fails with `false` and changes nothing. -/
theorem removeChildAt_out_of_range_witness :
    removeChildAt w0 0 5 = (w0, false) := by
  exact removeChildAt_out_of_range w0 0 5 (by right; unfold w0; simp)

/-- The sublist of `l` that keeps exactly the elements whose position
(counting from `k`) is not listed in `idxs`: the specification of what a
multi-index removal must leave behind. -/
def keepIdx (idxs : List ℤ) : ℤ → List ℕ → List ℕ
  | _, [] => []
  | k, x :: xs => if k ∈ idxs then keepIdx idxs (k + 1) xs else x :: keepIdx idxs (k + 1) xs

lemma keepIdx_of_lt (idxs : List ℤ) : ∀ (l : List ℕ) (k : ℤ),
    (∀ j ∈ idxs, j < k) → keepIdx idxs k l = l := by
  intro l
  induction l with
  | nil => intro k _; rfl
  | cons x xs ih =>
    intro k hk
    have hnk : k ∉ idxs := fun hmem => absurd (hk k hmem) (lt_irrefl k)
    rw [keepIdx, if_neg hnk, ih (k + 1) (fun j hj => lt_trans (hk j hj) (by omega))]

lemma keepIdx_congr (s t : List ℤ) (hst : ∀ j, j ∈ s ↔ j ∈ t) :
    ∀ (l : List ℕ) (k : ℤ), keepIdx s k l = keepIdx t k l := by
  intro l
  induction l with
  | nil => intro k; rfl
  | cons x xs ih =>
    intro k
    rw [keepIdx, keepIdx]
    by_cases hk : k ∈ s
    · rw [if_pos hk, if_pos ((hst k).mp hk), ih]
    · rw [if_neg hk, if_neg (fun h => hk ((hst k).mpr h)), ih]

lemma keepIdx_erase_comm (rest : List ℤ) (i : ℤ) : ∀ (l : List ℕ) (k : ℤ),
    k ≤ i → (∀ j ∈ rest, j < i) →
    keepIdx rest k (l.eraseIdx (i - k).toNat) = keepIdx (i :: rest) k l := by
  intro l
  induction l with
  | nil => intro k _ _; rfl
  | cons x xs ih =>
    intro k hk hrest
    by_cases hki : k = i
    · subst hki
      have h0 : (k - k).toNat = 0 := by omega
      rw [h0]
      show keepIdx rest k xs = keepIdx (k :: rest) k (x :: xs)
      rw [keepIdx, if_pos (List.mem_cons_self k rest)]
      rw [keepIdx_of_lt rest xs k hrest,
        keepIdx_of_lt (k :: rest) xs (k + 1) ?_]
      intro j hj
      rcases List.mem_cons.mp hj with h | h
      · omega
      · have := hrest j h
        omega
    · have hlt : k < i := lt_of_le_of_ne hk hki
      have hm : (i - k).toNat = (i - (k + 1)).toNat + 1 := by omega
      rw [hm]
      show keepIdx rest k (x :: xs.eraseIdx (i - (k + 1)).toNat) =
        keepIdx (i :: rest) k (x :: xs)
      rw [keepIdx, keepIdx]
      have hmemiff : (k ∈ rest) = (k ∈ i :: rest) := by
        simp [List.mem_cons, hki]
      by_cases hkr : k ∈ rest
      · rw [if_pos hkr, if_pos (by rw [← hmemiff]; exact hkr)]
        exact ih (k + 1) (by omega) hrest
      · rw [if_neg hkr, if_neg (by rw [← hmemiff]; exact hkr)]
        rw [ih (k + 1) (by omega) hrest]

lemma get?_eraseIdx_of_lt : ∀ (l : List ℕ) (m n : ℕ), n < m →
    (l.eraseIdx m).get? n = l.get? n := by
  intro l
  induction l with
  | nil => intro m n _; rfl
  | cons x xs ih =>
    intro m n h
    match m, h with
    | m' + 1, _ =>
      show (x :: xs.eraseIdx m').get? n = (x :: xs).get? n
      match n with
      | 0 => rfl
      | n' + 1 =>
        show (xs.eraseIdx m').get? n' = xs.get? n'
        exact ih m' n' (by omega)

lemma removeChildAt_in_range (w : World) (g : ℕ) (i : ℤ)
    (h0 : 0 ≤ i) (h1 : i < ((w.childrenOf g).length : ℤ)) :
    (removeChildAt w g i).2 = true ∧
    (removeChildAt w g i).1.childrenOf g = (w.childrenOf g).eraseIdx i.toNat ∧
    (∀ h, h ≠ g → (removeChildAt w g i).1.childrenOf h = w.childrenOf h) ∧
    (∀ nd, (w.childrenOf g).get? i.toNat = some nd →
      (removeChildAt w g i).1.parentOf nd = none) ∧
    (∀ x, (removeChildAt w g i).1.parentOf x = none ∨
      (removeChildAt w g i).1.parentOf x = w.parentOf x) := by
  have hcond : ¬(i < 0 ∨ i > ((w.childrenOf g).length : ℤ) - 1) := by omega
  have hlt : i.toNat < (w.childrenOf g).length := by omega
  obtain ⟨child, hchild⟩ : ∃ c, (w.childrenOf g).get? i.toNat = some c := by
    rw [List.get?_eq_get hlt]
    exact ⟨_, rfl⟩
  unfold removeChildAt
  rw [if_neg hcond]
  simp only [hchild]
  refine ⟨by trivial, by simp, fun h hh => by simp [hh], ?_, ?_⟩
  · intro nd hnd
    have hndc : nd = child := (Option.some_inj.mp hnd).symm
    subst hndc
    simp
  · intro x
    by_cases hx : x = child
    · left; simp [hx]
    · right; simp [hx]

lemma removeMany_go (s : List ℤ) : ∀ (w : World) (g : ℕ),
    s.Pairwise (fun a b => b < a) →
    (∀ j ∈ s, 0 ≤ j ∧ j < ((w.childrenOf g).length : ℤ)) →
    (s.foldl (fun acc i => if acc.2 then removeChildAt acc.1 g i else (acc.1, false))
        (w, true)).2 = true ∧
    (s.foldl (fun acc i => if acc.2 then removeChildAt acc.1 g i else (acc.1, false))
        (w, true)).1.childrenOf g = keepIdx s 0 (w.childrenOf g) ∧
    (∀ h, h ≠ g →
      (s.foldl (fun acc i => if acc.2 then removeChildAt acc.1 g i else (acc.1, false))
        (w, true)).1.childrenOf h = w.childrenOf h) ∧
    (∀ j ∈ s, ∀ nd, (w.childrenOf g).get? j.toNat = some nd →
      (s.foldl (fun acc i => if acc.2 then removeChildAt acc.1 g i else (acc.1, false))
        (w, true)).1.parentOf nd = none) ∧
    (∀ x, w.parentOf x = none →
      (s.foldl (fun acc i => if acc.2 then removeChildAt acc.1 g i else (acc.1, false))
        (w, true)).1.parentOf x = none) := by
  induction s with
  | nil =>
    intro w g _ _
    refine ⟨rfl, ?_, fun h _ => rfl, fun j hj => absurd hj (List.not_mem_nil j), fun x hx => hx⟩
    show (w, true).1.childrenOf g = keepIdx [] 0 (w.childrenOf g)
    rw [keepIdx_of_lt [] (w.childrenOf g) 0 (by intro j hj; cases hj)]
  | cons i rest ih =>
    intro w g hpw hrange
    have hirange := hrange i (List.mem_cons_self i rest)
    have hresti : ∀ j ∈ rest, j < i := by
      intro j hj
      exact (List.pairwise_cons.mp hpw).1 j hj
    have hprest : rest.Pairwise (fun a b => b < a) := (List.pairwise_cons.mp hpw).2
    obtain ⟨hs2, hsg, hsh, hsnd, hsmono⟩ :=
      removeChildAt_in_range w g i hirange.1 hirange.2
    have hstep : (List.foldl (fun acc j => if acc.2 then removeChildAt acc.1 g j else (acc.1, false))
        (w, true) (i :: rest)) =
        (List.foldl (fun acc j => if acc.2 then removeChildAt acc.1 g j else (acc.1, false))
          ((removeChildAt w g i).1, true) rest) := by
      show (List.foldl _ (if (w, true).2 then removeChildAt (w, true).1 g i
        else ((w, true).1, false)) rest) = _
      rw [if_pos rfl]
      have : removeChildAt w g i = ((removeChildAt w g i).1, true) := by
        rw [← hs2]
      rw [this]
    have hlen1 : ((((removeChildAt w g i).1).childrenOf g).length : ℤ) =
        ((w.childrenOf g).length : ℤ) - 1 := by
      rw [hsg]
      have hlt : i.toNat < (w.childrenOf g).length := by omega
      have := List.length_eraseIdx_add_one hlt
      omega
    have hrange1 : ∀ j ∈ rest, 0 ≤ j ∧ j < ((((removeChildAt w g i).1).childrenOf g).length : ℤ) := by
      intro j hj
      have := hrange j (List.mem_cons_of_mem i hj)
      have := hresti j hj
      constructor
      · omega
      · rw [hlen1]; omega
    obtain ⟨ih2, ihg, ihh, ihnd, ihmono⟩ := ih (removeChildAt w g i).1 g hprest hrange1
    rw [hstep]
    refine ⟨ih2, ?_, ?_, ?_, ?_⟩
    · rw [ihg, hsg]
      have := keepIdx_erase_comm rest i (w.childrenOf g) 0 hirange.1 hresti
      rw [Int.sub_zero] at this
      exact this
    · intro h hh
      rw [ihh h hh, hsh h hh]
    · intro j hj nd hnd
      rcases List.mem_cons.mp hj with hji | hjr
      · subst hji
        exact ihmono nd (hsnd nd hnd)
      · have hjlt := hresti j hjr
        have hj0 := (hrange j (List.mem_cons_of_mem i hjr)).1
        have hnd1 : (((removeChildAt w g i).1).childrenOf g).get? j.toNat = some nd := by
          rw [hsg, get?_eraseIdx_of_lt (w.childrenOf g) i.toNat j.toNat (by omega)]
          exact hnd
        exact ihnd j hjr nd hnd1
    · intro x hx
      apply ihmono
      rcases hsmono x with h | h
      · exact h
      · rw [h]; exact hx

instance descTotal : IsTotal ℤ (fun a b : ℤ => b ≤ a) :=
  ⟨fun a b => le_total b a⟩

instance descTrans : IsTrans ℤ (fun a b : ℤ => b ≤ a) :=
  ⟨fun _ _ _ h1 h2 => le_trans h2 h1⟩

lemma descSort_sorted (l : List ℤ) : (descSort l).Pairwise (fun a b : ℤ => b ≤ a) :=
  List.sorted_insertionSort _ l

lemma descSort_perm (l : List ℤ) : List.Perm (descSort l) l :=
  List.perm_insertionSort _ l

/-- C5: a multi-index `removeChildAt` call with distinct in-range indices, in
any argument order, removes exactly the children originally at those indices
(the internal descending sort keeps later removals valid), nulls the parent
of each removed child, and returns `true`. -/
theorem removeChildAtMany_spec (w : World) (g : ℕ) (idxs : List ℤ)
    (_hne : idxs ≠ []) (hnodup : idxs.Nodup)
    (hrange : ∀ j ∈ idxs, 0 ≤ j ∧ j < ((w.childrenOf g).length : ℤ)) :
    (removeChildAtMany w g idxs).2 = true ∧
    (removeChildAtMany w g idxs).1.childrenOf g = keepIdx idxs 0 (w.childrenOf g) ∧
    (∀ h, h ≠ g → (removeChildAtMany w g idxs).1.childrenOf h = w.childrenOf h) ∧
    (∀ j ∈ idxs, ∀ nd, (w.childrenOf g).get? j.toNat = some nd →
      (removeChildAtMany w g idxs).1.parentOf nd = none) := by
  have hmemiff : ∀ j, j ∈ descSort idxs ↔ j ∈ idxs := fun j => (descSort_perm idxs).mem_iff
  have hnodups : (descSort idxs).Nodup := ((descSort_perm idxs).nodup_iff).mpr hnodup
  have hpair : (descSort idxs).Pairwise (fun a b : ℤ => b < a) := by
    have h1 := descSort_sorted idxs
    have h2 : (descSort idxs).Pairwise (fun a b : ℤ => a ≠ b) := hnodups
    exact (h1.and h2).imp (fun h => lt_of_le_of_ne h.1 (Ne.symm h.2))
  have hranges : ∀ j ∈ descSort idxs, 0 ≤ j ∧ j < ((w.childrenOf g).length : ℤ) :=
    fun j hj => hrange j ((hmemiff j).mp hj)
  obtain ⟨h1, h2, h3, h4, _⟩ := removeMany_go (descSort idxs) w g hpair hranges
  unfold removeChildAtMany
  refine ⟨h1, ?_, h3, ?_⟩
  · rw [h2, keepIdx_congr (descSort idxs) idxs hmemiff]
  · intro j hj nd hnd
    exact h4 j ((hmemiff j).mpr hj) nd hnd

/-- Witness for C5: `removeChildAt(2, 0)` on the 3-child Group 0 of `w0`
removes the original first and third children (10 and 12), leaving `[11]`,
nulls their parents, and returns `true`. -/
theorem removeChildAtMany_spec_witness :
    (removeChildAtMany w0 0 [2, 0]).2 = true ∧
    (removeChildAtMany w0 0 [2, 0]).1.childrenOf 0 = [11] ∧
    (removeChildAtMany w0 0 [2, 0]).1.parentOf 12 = none ∧
    (removeChildAtMany w0 0 [2, 0]).1.parentOf 10 = none := by
  obtain ⟨h1, h2, h3, h4⟩ :=
    removeChildAtMany_spec w0 0 [2, 0] (by decide) (by decide)
      (by intro j hj; rw [w0_childrenOf]; fin_cases hj <;> norm_num)
  refine ⟨h1, ?_, ?_, ?_⟩
  · rw [h2]
    decide
  · exact h4 2 (by decide) 12 (by decide)
  · exact h4 0 (by decide) 10 (by decide)

end Container

/-- A JavaScript number for the Matrix2D algebra: an exact rational, or one
of the IEEE special values NaN, +Infinity, -Infinity (rounding is not
modelled). -/
inductive JNum where
  | fin (q : ℚ)
  | nan
  | inf
  | ninf
deriving DecidableEq

namespace JNum

/-- Whether the number is an ordinary (finite) value. -/
def isFinite : JNum → Bool
  | fin _ => true
  | _ => false

/-- JS unary minus. -/
def jneg : JNum → JNum
  | fin q => fin (-q)
  | nan => nan
  | inf => ninf
  | ninf => inf

/-- JS multiplication with NaN/Infinity propagation. -/
def jmul : JNum → JNum → JNum
  | fin a, fin b => fin (a * b)
  | nan, _ => nan
  | _, nan => nan
  | inf, fin b => if 0 < b then inf else if b < 0 then ninf else nan
  | fin a, inf => if 0 < a then inf else if a < 0 then ninf else nan
  | ninf, fin b => if 0 < b then ninf else if b < 0 then inf else nan
  | fin a, ninf => if 0 < a then ninf else if a < 0 then inf else nan
  | inf, inf => inf
  | inf, ninf => ninf
  | ninf, inf => ninf
  | ninf, ninf => inf

/-- JS subtraction with NaN/Infinity propagation. -/
def jsub : JNum → JNum → JNum
  | fin a, fin b => fin (a - b)
  | nan, _ => nan
  | _, nan => nan
  | inf, inf => nan
  | inf, _ => inf
  | ninf, ninf => nan
  | ninf, _ => ninf
  | fin _, inf => ninf
  | fin _, ninf => inf

/-- JS division: division by (positive) zero produces NaN for a zero
numerator and a signed infinity otherwise — never an exception. -/
def jdiv : JNum → JNum → JNum
  | fin a, fin b =>
    if b = 0 then (if a = 0 then nan else if 0 < a then inf else ninf)
    else fin (a / b)
  | nan, _ => nan
  | _, nan => nan
  | inf, fin b => if 0 ≤ b then inf else ninf
  | ninf, fin b => if 0 ≤ b then ninf else inf
  | fin _, inf => fin 0
  | fin _, ninf => fin 0
  | inf, inf => nan
  | inf, ninf => nan
  | ninf, inf => nan
  | ninf, ninf => nan

lemma jdiv_fin {a b : ℚ} (h : b ≠ 0) : jdiv (fin a) (fin b) = fin (a / b) := by
  simp [jdiv, h]

lemma jdiv_fin_zero_not_finite (a : ℚ) : (jdiv (fin a) (fin 0)).isFinite = false := by
  simp only [jdiv, if_pos rfl]
  split_ifs <;> rfl

end JNum

/-- `easel.Matrix2D` (part_000): six affine coefficients plus the inherited
visual attributes `alpha`, `shadow` (an opaque JS object, modelled by an
abstract identifier) and `compositeOperation` (a nullable string). -/
@[ext]
structure Matrix2D where
  a : JNum
  b : JNum
  c : JNum
  d : JNum
  tx : JNum
  ty : JNum
  alpha : ℚ
  shadow : Option ℕ
  compositeOperation : Option String
deriving DecidableEq

namespace Matrix2D

open JNum

/-- `easel.Matrix2D.prototype.invert` (part_000 lines 482-496): the standard
affine inverse computed with JS arithmetic; `n = a1*d1 - b1*c1`, `tx` and
`ty` use the old `this.ty`. -/
def invert (m : Matrix2D) : Matrix2D :=
  let a1 := m.a
  let b1 := m.b
  let c1 := m.c
  let d1 := m.d
  let tx1 := m.tx
  let n := jsub (jmul a1 d1) (jmul b1 c1)
  { m with
    a := jdiv d1 n,
    b := jdiv (jneg b1) n,
    c := jdiv (jneg c1) n,
    d := jdiv a1 n,
    tx := jdiv (jsub (jmul c1 m.ty) (jmul d1 tx1)) n,
    ty := jdiv (jneg (jsub (jmul a1 m.ty) (jmul b1 tx1))) n }

/-- `easel.Matrix2D.prototype.clone` (part_000 lines 585-591): a new matrix
with the same six coefficients, then `shadow`, `alpha` and
`compositeOperation` copied across. -/
def clone (m : Matrix2D) : Matrix2D :=
  { a := m.a, b := m.b, c := m.c, d := m.d, tx := m.tx, ty := m.ty,
    shadow := m.shadow, alpha := m.alpha, compositeOperation := m.compositeOperation }

/-- `easel.Matrix2D.prototype.appendProperties` (part_000 lines 563-567):
`this.alpha *= alpha; this.shadow = shadow || this.shadow;
this.compositeOperation = compositeOperation || this.compositeOperation`.
JS `||` keeps the left operand when truthy: a shadow object is always
truthy (`isSome`), a string is truthy iff non-null and non-empty. -/
def appendProperties (m : Matrix2D) (alpha : ℚ) (shadow : Option ℕ)
    (compositeOperation : Option String) : Matrix2D :=
  { m with
    alpha := m.alpha * alpha,
    shadow := if shadow.isSome then shadow else m.shadow,
    compositeOperation :=
      if jsTruthyStr compositeOperation then compositeOperation else m.compositeOperation }

/-- `easel.Matrix2D.prototype.prependProperties` (part_000 lines 575-579):
as `appendProperties` but with the existing values taking precedence:
`this.shadow = this.shadow || shadow;
this.compositeOperation = this.compositeOperation || compositeOperation`. -/
def prependProperties (m : Matrix2D) (alpha : ℚ) (shadow : Option ℕ)
    (compositeOperation : Option String) : Matrix2D :=
  { m with
    alpha := m.alpha * alpha,
    shadow := if m.shadow.isSome then m.shadow else shadow,
    compositeOperation :=
      if jsTruthyStr m.compositeOperation then m.compositeOperation else compositeOperation }

/-- A Matrix2D with the given finite coefficients and default visual
attributes. -/
def finMat (qa qb qc qd qtx qty : ℚ) : Matrix2D :=
  { a := .fin qa, b := .fin qb, c := .fin qc, d := .fin qd,
    tx := .fin qtx, ty := .fin qty,
    alpha := 1, shadow := none, compositeOperation := none }

lemma clone_finMat (qa qb qc qd qtx qty : ℚ) :
    (finMat qa qb qc qd qtx qty).clone = finMat qa qb qc qd qtx qty := rfl

lemma invert_finMat (qa qb qc qd qtx qty : ℚ) (h : qa * qd - qb * qc ≠ 0) :
    (finMat qa qb qc qd qtx qty).invert =
      finMat (qd / (qa * qd - qb * qc)) (-qb / (qa * qd - qb * qc))
        (-qc / (qa * qd - qb * qc)) (qa / (qa * qd - qb * qc))
        ((qc * qty - qd * qtx) / (qa * qd - qb * qc))
        (-(qa * qty - qb * qtx) / (qa * qd - qb * qc)) := by
  unfold invert finMat
  have hn : jsub (jmul (JNum.fin qa) (JNum.fin qd)) (jmul (JNum.fin qb) (JNum.fin qc)) =
      JNum.fin (qa * qd - qb * qc) := rfl
  ext <;> simp only [hn] <;>
    first
      | rfl
      | (show jdiv (JNum.fin _) (JNum.fin _) = JNum.fin _; rw [jdiv_fin h])

lemma invert_not_finite_of_det_zero (qa qb qc qd qtx qty : ℚ)
    (h : qa * qd - qb * qc = 0) :
    (finMat qa qb qc qd qtx qty).invert.a.isFinite = false ∧
    (finMat qa qb qc qd qtx qty).invert.b.isFinite = false ∧
    (finMat qa qb qc qd qtx qty).invert.c.isFinite = false ∧
    (finMat qa qb qc qd qtx qty).invert.d.isFinite = false ∧
    (finMat qa qb qc qd qtx qty).invert.tx.isFinite = false ∧
    (finMat qa qb qc qd qtx qty).invert.ty.isFinite = false := by
  have hn : jsub (jmul (JNum.fin qa) (JNum.fin qd)) (jmul (JNum.fin qb) (JNum.fin qc)) =
      JNum.fin 0 := by
    show JNum.fin (qa * qd - qb * qc) = JNum.fin 0
    rw [h]
  simp only [invert, finMat, hn]
  exact ⟨jdiv_fin_zero_not_finite _, jdiv_fin_zero_not_finite _, jdiv_fin_zero_not_finite _,
    jdiv_fin_zero_not_finite _, jdiv_fin_zero_not_finite _, jdiv_fin_zero_not_finite _⟩

/-- C2: for finite coefficients with non-zero determinant, clone-then-double-
invert reproduces all six coefficients exactly; with a zero determinant,
`invert` (a total function — no exception) leaves every coefficient
non-finite (NaN or a signed infinity). -/
theorem invert_roundtrip (qa qb qc qd qtx qty : ℚ) :
    (qa * qd - qb * qc ≠ 0 →
      ((finMat qa qb qc qd qtx qty).clone.invert.invert.a = (finMat qa qb qc qd qtx qty).a ∧
       (finMat qa qb qc qd qtx qty).clone.invert.invert.b = (finMat qa qb qc qd qtx qty).b ∧
       (finMat qa qb qc qd qtx qty).clone.invert.invert.c = (finMat qa qb qc qd qtx qty).c ∧
       (finMat qa qb qc qd qtx qty).clone.invert.invert.d = (finMat qa qb qc qd qtx qty).d ∧
       (finMat qa qb qc qd qtx qty).clone.invert.invert.tx = (finMat qa qb qc qd qtx qty).tx ∧
       (finMat qa qb qc qd qtx qty).clone.invert.invert.ty = (finMat qa qb qc qd qtx qty).ty)) ∧
    (qa * qd - qb * qc = 0 →
      ((finMat qa qb qc qd qtx qty).clone.invert.a.isFinite = false ∧
       (finMat qa qb qc qd qtx qty).clone.invert.b.isFinite = false ∧
       (finMat qa qb qc qd qtx qty).clone.invert.c.isFinite = false ∧
       (finMat qa qb qc qd qtx qty).clone.invert.d.isFinite = false ∧
       (finMat qa qb qc qd qtx qty).clone.invert.tx.isFinite = false ∧
       (finMat qa qb qc qd qtx qty).clone.invert.ty.isFinite = false)) := by
  constructor
  · intro h
    rw [clone_finMat, invert_finMat qa qb qc qd qtx qty h]
    have hdet2 : qd / (qa * qd - qb * qc) * (qa / (qa * qd - qb * qc)) -
        -qb / (qa * qd - qb * qc) * (-qc / (qa * qd - qb * qc)) =
        1 / (qa * qd - qb * qc) := by
      field_simp [h]
      ring
    rw [invert_finMat _ _ _ _ _ _ (by rw [hdet2]; exact one_div_ne_zero h)]
    rw [hdet2]
    simp only [finMat]
    refine ⟨?_, ?_, ?_, ?_, ?_, ?_⟩ <;> (apply congrArg JNum.fin; field_simp [h]; try ring)
  · intro h
    rw [clone_finMat]
    exact invert_not_finite_of_det_zero qa qb qc qd qtx qty h

/-- Witness for C2: the round trip at the invertible matrix
(2,0,0,1,3,4), and non-finite inversion at the singular matrix
(1,1,1,1,0,0). -/
theorem invert_roundtrip_witness :
    ((finMat 2 0 0 1 3 4).clone.invert.invert.a = (finMat 2 0 0 1 3 4).a ∧
     (finMat 2 0 0 1 3 4).clone.invert.invert.b = (finMat 2 0 0 1 3 4).b ∧
     (finMat 2 0 0 1 3 4).clone.invert.invert.c = (finMat 2 0 0 1 3 4).c ∧
     (finMat 2 0 0 1 3 4).clone.invert.invert.d = (finMat 2 0 0 1 3 4).d ∧
     (finMat 2 0 0 1 3 4).clone.invert.invert.tx = (finMat 2 0 0 1 3 4).tx ∧
     (finMat 2 0 0 1 3 4).clone.invert.invert.ty = (finMat 2 0 0 1 3 4).ty) ∧
    ((finMat 1 1 1 1 0 0).clone.invert.a.isFinite = false ∧
     (finMat 1 1 1 1 0 0).clone.invert.b.isFinite = false ∧
     (finMat 1 1 1 1 0 0).clone.invert.c.isFinite = false ∧
     (finMat 1 1 1 1 0 0).clone.invert.d.isFinite = false ∧
     (finMat 1 1 1 1 0 0).clone.invert.tx.isFinite = false ∧
     (finMat 1 1 1 1 0 0).clone.invert.ty.isFinite = false) :=
  ⟨(invert_roundtrip 2 0 0 1 3 4).1 (by norm_num),
   (invert_roundtrip 1 1 1 1 0 0).2 (by norm_num)⟩

/-- C7 (amended): both property-merge directions multiply opacity; shadow
follows "last non-null wins" exactly as claimed (append: incoming wins iff
non-null; prepend: existing wins unless null), while for compositeMode the
override happens iff the deciding value is JS-truthy — non-null AND
non-empty — rather than merely non-null. -/
theorem appendPrependProperties_precedence (m : Matrix2D) (al : ℚ) (sh : Option ℕ)
    (cm : Option String) :
    (m.appendProperties al sh cm).alpha = m.alpha * al ∧
    (m.appendProperties al sh cm).shadow = (if sh ≠ none then sh else m.shadow) ∧
    (m.appendProperties al sh cm).compositeOperation =
      (if cm ≠ none ∧ cm ≠ some "" then cm else m.compositeOperation) ∧
    (m.prependProperties al sh cm).alpha = m.alpha * al ∧
    (m.prependProperties al sh cm).shadow = (if m.shadow ≠ none then m.shadow else sh) ∧
    (m.prependProperties al sh cm).compositeOperation =
      (if m.compositeOperation ≠ none ∧ m.compositeOperation ≠ some "" then
        m.compositeOperation else cm) := by
  refine ⟨rfl, ?_, ?_, rfl, ?_, ?_⟩
  · show (if sh.isSome then sh else m.shadow) = _
    cases sh <;> simp
  · show (if jsTruthyStr cm then cm else m.compositeOperation) = _
    by_cases h : cm ≠ none ∧ cm ≠ some ""
    · rw [if_pos ((jsTruthyStr_iff cm).mpr h), if_pos h]
    · rw [if_neg (fun hb => h ((jsTruthyStr_iff cm).mp hb)), if_neg h]
  · show (if m.shadow.isSome then m.shadow else sh) = _
    cases hs : m.shadow <;> simp
  · show (if jsTruthyStr m.compositeOperation then m.compositeOperation else cm) = _
    by_cases h : m.compositeOperation ≠ none ∧ m.compositeOperation ≠ some ""
    · rw [if_pos ((jsTruthyStr_iff m.compositeOperation).mpr h), if_pos h]
    · rw [if_neg (fun hb => h ((jsTruthyStr_iff m.compositeOperation).mp hb)), if_neg h]

/-- A matrix whose composite mode is already set, for the C7 counterexample. -/
def mComposite : Matrix2D :=
  { a := .fin 1, b := .fin 0, c := .fin 0, d := .fin 1, tx := .fin 0, ty := .fin 0,
    alpha := 1, shadow := none, compositeOperation := some ("multiply") }

/-- Counterexample to C7 as stated: the incoming compositeMode `""` is not
null, yet `appendProperties` keeps the existing value instead of letting the
incoming one override (JS `||` treats the empty string as falsy). -/
theorem appendProperties_empty_string_kept :
    (mComposite.appendProperties 1 none (some (""))).compositeOperation ≠ some ("") ∧
    (mComposite.appendProperties 1 none (some (""))).compositeOperation =
      some ("multiply") := by
  constructor
  · decide
  · decide

end Matrix2D

namespace Cache

/-- One primitive operation performed against the offscreen cache canvas
context during `cache`/`updateCache`. -/
inductive SurfaceOp where
  | setTransform (a b c d tx ty : ℚ)
  | clearRect (x y w h : ℚ)
  | setComposite (mode : String)
  | drawContent
  | applyFilters
deriving DecidableEq

/-- The caching fields of `easel.DisplayObject` (part_002): the optional
offscreen canvas (modelled by its width × height) and the recorded blit
offset. -/
structure CacheState where
  cacheCanvas : Option (ℚ × ℚ)
  cacheOffsetX : ℚ
  cacheOffsetY : ℚ
deriving DecidableEq

/-- `easel.DisplayObject.prototype.cache` (part_002): allocates/resizes the
canvas, translates the origin to `(-x,-y)`, clears `(0,0,width+1,height+1)`,
draws the content ignoring the cache, records the offset and applies the
filters. -/
def cache (_st : CacheState) (x y width height : ℚ) : CacheState × List SurfaceOp :=
  ({ cacheCanvas := some (width, height), cacheOffsetX := x, cacheOffsetY := y },
   [SurfaceOp.setTransform 1 0 0 1 (-x) (-y),
    SurfaceOp.clearRect 0 0 (width + 1) (height + 1),
    SurfaceOp.drawContent,
    SurfaceOp.applyFilters])

/-- `easel.DisplayObject.prototype.uncache` (part_002 lines 423-426):
releases the canvas and zeroes the offset. -/
def uncache (_st : CacheState) : CacheState :=
  { cacheCanvas := none, cacheOffsetX := 0, cacheOffsetY := 0 }

/-- `easel.DisplayObject.prototype.updateCache` (part_002 lines 409-418):
throws `"cache() must be called before updateCache()"` when no cache
exists; otherwise sets the transform, then — `if (!compositeOperation)` —
either clears the canvas rectangle (falsy compositeOperation: null,
undefined or `""`) or installs the composite rule, draws the content,
restores `"source-over"` in the truthy case, and reapplies filters. The
canvas context is modelled as the returned trace of operations. -/
def updateCache (st : CacheState) (compositeOperation : Option String) :
    Except String (List SurfaceOp) :=
  match st.cacheCanvas with
  | none => Except.error ("cache() must be called before updateCache()")
  | some cv =>
    Except.ok
      ([SurfaceOp.setTransform 1 0 0 1 (-st.cacheOffsetX) (-st.cacheOffsetY)] ++
       (if jsTruthyStr compositeOperation then
         [SurfaceOp.setComposite (compositeOperation.getD (""))]
       else
         [SurfaceOp.clearRect 0 0 (cv.1 + 1) (cv.2 + 1)]) ++
       [SurfaceOp.drawContent] ++
       (if jsTruthyStr compositeOperation then
         [SurfaceOp.setComposite ("source-over")]
       else []) ++
       [SurfaceOp.applyFilters])

/-- C3 (amended): `updateCache` without an existing cache — including right
after `uncache` — fails fast with the error message
`cache() must be called before updateCache()`; with a cache it clears then
redraws when the compositeMode is absent (or empty, which JS treats as
falsy), and with a non-empty compositeMode it draws over the cached pixels
under that rule and then restores `"source-over"`. -/
theorem updateCache_spec (st : CacheState) (cv : ℚ × ℚ) (m : String)
    (comp : Option String) :
    (st.cacheCanvas = none →
      updateCache st comp = Except.error ("cache() must be called before updateCache()")) ∧
    (updateCache (uncache st) comp =
      Except.error ("cache() must be called before updateCache()")) ∧
    (st.cacheCanvas = some cv →
      updateCache st none = Except.ok
        [SurfaceOp.setTransform 1 0 0 1 (-st.cacheOffsetX) (-st.cacheOffsetY),
         SurfaceOp.clearRect 0 0 (cv.1 + 1) (cv.2 + 1),
         SurfaceOp.drawContent, SurfaceOp.applyFilters]) ∧
    (st.cacheCanvas = some cv → m ≠ "" →
      updateCache st (some m) = Except.ok
        [SurfaceOp.setTransform 1 0 0 1 (-st.cacheOffsetX) (-st.cacheOffsetY),
         SurfaceOp.setComposite m, SurfaceOp.drawContent,
         SurfaceOp.setComposite ("source-over"), SurfaceOp.applyFilters]) := by
  refine ⟨?_, ?_, ?_, ?_⟩
  · intro h
    unfold updateCache
    rw [h]
  · unfold updateCache uncache
    rfl
  · intro h
    unfold updateCache
    rw [h]
    rfl
  · intro h hm
    have ht : jsTruthyStr (some m) = true :=
      (jsTruthyStr_iff (some m)).mpr ⟨by simp, by simpa using hm⟩
    unfold updateCache
    rw [h]
    simp [ht]

/-- A concretely cached node (10×10 canvas, offset (2,3)) and a never-cached
node, for the C3 witness and counterexample. -/
def stCached : CacheState :=
  { cacheCanvas := some (10, 10), cacheOffsetX := 2, cacheOffsetY := 3 }

def stEmpty : CacheState :=
  { cacheCanvas := none, cacheOffsetX := 0, cacheOffsetY := 0 }

/-- Witness for C3: the error path on a never-cached and an uncached node,
and both repaint traces on the cached node. -/
theorem updateCache_spec_witness :
    (updateCache stEmpty none =
      Except.error ("cache() must be called before updateCache()")) ∧
    (updateCache (uncache stCached) (some ("multiply")) =
      Except.error ("cache() must be called before updateCache()")) ∧
    (updateCache stCached none = Except.ok
      [SurfaceOp.setTransform 1 0 0 1 (-stCached.cacheOffsetX) (-stCached.cacheOffsetY),
       SurfaceOp.clearRect 0 0 11 11,
       SurfaceOp.drawContent, SurfaceOp.applyFilters]) ∧
    (updateCache stCached (some ("multiply")) = Except.ok
      [SurfaceOp.setTransform 1 0 0 1 (-stCached.cacheOffsetX) (-stCached.cacheOffsetY),
       SurfaceOp.setComposite ("multiply"), SurfaceOp.drawContent,
       SurfaceOp.setComposite ("source-over"), SurfaceOp.applyFilters]) := by
  have h1 := updateCache_spec stEmpty (0, 0) ("multiply") none
  have h2 := updateCache_spec stCached (10, 10) ("multiply") (some ("multiply"))
  refine ⟨h1.1 rfl, h2.2.1, ?_, h2.2.2.2 rfl (by decide)⟩
  have h3 := h2.2.2.1 rfl
  norm_num at h3
  exact h3

/-- Counterexample to C3 as stated: the compositeMode `""` is present, yet
`updateCache` clears-then-redraws exactly as if it were absent — the cached
pixels are not drawn over under the given rule and `"source-over"` is never
restored. -/
theorem updateCache_empty_string_behaves_as_absent :
    updateCache stCached (some ("")) = updateCache stCached none ∧
    updateCache stCached (some ("")) = Except.ok
      [SurfaceOp.setTransform 1 0 0 1 (-2) (-3),
       SurfaceOp.clearRect 0 0 (10 + 1) (10 + 1),
       SurfaceOp.drawContent, SurfaceOp.applyFilters] := by
  constructor
  · rfl
  · rfl

end Cache

namespace Gfx

/-- A value stored by a `_setProp` command: a string, a number, a gradient
or pattern object created by the context, or JS `undefined` (an
out-of-range caps/joints map lookup). -/
inductive PropVal where
  | str (s : String)
  | num (q : ℚ)
  | linGrad (cs : List String) (rs : List ℚ) (x0 y0 x1 y1 : ℚ)
  | radGrad (cs : List String) (rs : List ℚ) (x0 y0 r0 x1 y1 r1 : ℚ)
  | pat (image : ℕ) (repetition : String)
  | undef
deriving DecidableEq

/-- One `easel.Command` of the Graphics instruction lists: the shared
begin/fill/stroke commands, a `_setProp` command, or a recorded context
path call. -/
inductive Instr where
  | beginPath
  | fill
  | stroke
  | setProp (name : String) (value : PropVal)
  | moveTo (x y : ℚ)
  | lineTo (x y : ℚ)
  | arcTo (x1 y1 x2 y2 radius : ℚ)
  | arc (x y radius startAngle endAngle : ℚ) (anticlockwise : Bool)
  | quadraticCurveTo (cpx cpy x y : ℚ)
  | bezierCurveTo (cp1x cp1y cp2x cp2y x y : ℚ)
  | rect (x y w h : ℚ)
  | closePath
deriving DecidableEq

/-- The mutable state of `easel.Graphics` (part_000): the five instruction
lists and the `_active`/`_dirty` flags. -/
structure Graphics where
  instructions : List Instr
  oldInstructions : List Instr
  activeInstructions : List Instr
  fillInstructions : Option (List Instr)
  strokeInstructions : Option (List Instr)
  strokeStyleInstructions : Option (List Instr)
  active : Bool
  dirty : Bool
deriving DecidableEq

/-- `easel.Graphics.prototype.clear` — also the state right after
`initialize`. -/
def clear : Graphics :=
  { instructions := [], oldInstructions := [], activeInstructions := [],
    fillInstructions := none, strokeInstructions := none,
    strokeStyleInstructions := none, active := false, dirty := false }

/-- `easel.Graphics.prototype._updateInstructions` (part_000 lines
1711-1727): rebuilds `_instructions` as old ++ beginCmd ++ fill-style ++
(stroke-style ++ stroke-appearance, the latter only when a stroke is set) ++
active path commands ++ fillCmd? ++ strokeCmd?. -/
def updateInstructions (g : Graphics) : List Instr :=
  g.oldInstructions ++ [Instr.beginPath] ++
  g.fillInstructions.getD [] ++
  (match g.strokeInstructions with
    | some s => s ++ g.strokeStyleInstructions.getD []
    | none => []) ++
  g.activeInstructions ++
  (if g.fillInstructions.isSome then [Instr.fill] else []) ++
  (if g.strokeInstructions.isSome then [Instr.stroke] else [])

/-- `easel.Graphics.prototype._newPath` (part_000): flush the pending
instructions when dirty, archive them as `_oldInstructions`, and reset the
active list and flags. -/
def newPath (g : Graphics) : Graphics :=
  let g1 := if g.dirty then { g with instructions := updateInstructions g } else g
  { g1 with
    oldInstructions := g1.instructions,
    activeInstructions := [],
    active := false,
    dirty := false }

/-- `easel.Graphics.prototype.draw` (part_000 lines 1012-1020): lazily
rebuild when dirty, then execute `_instructions` against the context —
modelled by returning the executed list. -/
def draw (g : Graphics) : Graphics × List Instr :=
  let g1 := if g.dirty then { g with instructions := updateInstructions g } else g
  (g1, g1.instructions)

/-- `STROKE_CAPS_MAP`. -/
def STROKE_CAPS_MAP : List String := ["butt", "round", "square"]

/-- `STROKE_JOINTS_MAP`. -/
def STROKE_JOINTS_MAP : List String := ["miter", "round", "bevel"]

/-- A recorded public Graphics API call, with JS-nullable arguments as
`Option`s and the tiny-API numeric caps/joints encoded in the left summand. -/
inductive RecOp where
  | moveTo (x y : ℚ)
  | lineTo (x y : ℚ)
  | arcTo (x1 y1 x2 y2 radius : ℚ)
  | arc (x y radius startAngle endAngle : ℚ) (anticlockwise : Option Bool)
  | quadraticCurveTo (cpx cpy x y : ℚ)
  | bezierCurveTo (cp1x cp1y cp2x cp2y x y : ℚ)
  | rect (x y w h : ℚ)
  | closePath
  | beginFill (color : Option String)
  | beginLinearGradientFill (cs : List String) (rs : List ℚ) (x0 y0 x1 y1 : ℚ)
  | beginRadialGradientFill (cs : List String) (rs : List ℚ) (x0 y0 r0 x1 y1 r1 : ℚ)
  | beginBitmapFill (image : ℕ) (repetition : Option String)
  | endFill
  | beginStroke (color : Option String)
  | beginLinearGradientStroke (cs : List String) (rs : List ℚ) (x0 y0 x1 y1 : ℚ)
  | beginRadialGradientStroke (cs : List String) (rs : List ℚ) (x0 y0 r0 x1 y1 r1 : ℚ)
  | beginBitmapStroke (image : ℕ) (repetition : Option String)
  | endStroke
  | setStrokeStyle (thickness : Option ℚ) (caps joints : Option (ℕ ⊕ String))
      (miterLimit : Option ℚ)
deriving DecidableEq

/-- The `lineCap`/`lineJoin` value: null defaults, a non-numeric value is
used as-is, a number is looked up in the map (JS yields `undefined` when out
of range). -/
def capValue (deflt : String) (tbl : List String) : Option (ℕ ⊕ String) → PropVal
  | none => PropVal.str deflt
  | some (Sum.inr s) => PropVal.str s
  | some (Sum.inl n) =>
    match tbl.get? n with
    | some s => PropVal.str s
    | none => PropVal.undef

/-- Executes one recorded call against the Graphics state, translated
method-by-method from part_000 (each style setter runs `_newPath` first when
`_active`; `moveTo` does not set `_dirty`; `closePath` records only when
`_active`). -/
def applyOp (g : Graphics) : RecOp → Graphics
  | RecOp.moveTo x y =>
    { g with activeInstructions := g.activeInstructions ++ [Instr.moveTo x y] }
  | RecOp.lineTo x y =>
    { g with
      dirty := true,
      active := true,
      activeInstructions := g.activeInstructions ++ [Instr.lineTo x y] }
  | RecOp.arcTo x1 y1 x2 y2 radius =>
    { g with
      dirty := true,
      active := true,
      activeInstructions := g.activeInstructions ++ [Instr.arcTo x1 y1 x2 y2 radius] }
  | RecOp.arc x y radius startAngle endAngle anticlockwise =>
    { g with
      dirty := true,
      active := true,
      activeInstructions := g.activeInstructions ++
        [Instr.arc x y radius startAngle endAngle (anticlockwise.getD false)] }
  | RecOp.quadraticCurveTo cpx cpy x y =>
    { g with
      dirty := true,
      active := true,
      activeInstructions := g.activeInstructions ++ [Instr.quadraticCurveTo cpx cpy x y] }
  | RecOp.bezierCurveTo c1x c1y c2x c2y x y =>
    { g with
      dirty := true,
      active := true,
      activeInstructions := g.activeInstructions ++ [Instr.bezierCurveTo c1x c1y c2x c2y x y] }
  | RecOp.rect x y w h =>
    { g with
      dirty := true,
      active := true,
      activeInstructions := g.activeInstructions ++ [Instr.rect x y w h] }
  | RecOp.closePath =>
    if g.active then
      { g with
        dirty := true,
        activeInstructions := g.activeInstructions ++ [Instr.closePath] }
    else g
  | RecOp.beginFill color =>
    let g1 := if g.active then newPath g else g
    { g1 with
      fillInstructions :=
        if jsTruthyStr color then
          some ([Instr.setProp ("fillStyle") (PropVal.str (color.getD ("")))])
        else none }
  | RecOp.beginLinearGradientFill cs rs x0 y0 x1 y1 =>
    let g1 := if g.active then newPath g else g
    { g1 with
      fillInstructions :=
        some ([Instr.setProp ("fillStyle") (PropVal.linGrad cs rs x0 y0 x1 y1)]) }
  | RecOp.beginRadialGradientFill cs rs x0 y0 r0 x1 y1 r1 =>
    let g1 := if g.active then newPath g else g
    { g1 with
      fillInstructions :=
        some ([Instr.setProp ("fillStyle") (PropVal.radGrad cs rs x0 y0 r0 x1 y1 r1)]) }
  | RecOp.beginBitmapFill image repetition =>
    let g1 := if g.active then newPath g else g
    { g1 with
      fillInstructions :=
        some ([Instr.setProp ("fillStyle") (PropVal.pat image (repetition.getD ("")))]) }
  | RecOp.endFill =>
    let g1 := if g.active then newPath g else g
    { g1 with fillInstructions := none }
  | RecOp.beginStroke color =>
    let g1 := if g.active then newPath g else g
    { g1 with
      strokeInstructions :=
        if jsTruthyStr color then
          some ([Instr.setProp ("strokeStyle") (PropVal.str (color.getD ("")))])
        else none }
  | RecOp.beginLinearGradientStroke cs rs x0 y0 x1 y1 =>
    let g1 := if g.active then newPath g else g
    { g1 with
      strokeInstructions :=
        some ([Instr.setProp ("strokeStyle") (PropVal.linGrad cs rs x0 y0 x1 y1)]) }
  | RecOp.beginRadialGradientStroke cs rs x0 y0 r0 x1 y1 r1 =>
    let g1 := if g.active then newPath g else g
    { g1 with
      strokeInstructions :=
        some ([Instr.setProp ("strokeStyle") (PropVal.radGrad cs rs x0 y0 r0 x1 y1 r1)]) }
  | RecOp.beginBitmapStroke image repetition =>
    let g1 := if g.active then newPath g else g
    { g1 with
      strokeInstructions :=
        some ([Instr.setProp ("strokeStyle") (PropVal.pat image (repetition.getD ("")))]) }
  | RecOp.endStroke =>
    let g1 := if g.active then newPath g else g
    { g1 with strokeInstructions := none }
  | RecOp.setStrokeStyle thickness caps joints miterLimit =>
    let g1 := if g.active then newPath g else g
    { g1 with
      strokeStyleInstructions := some
        ([Instr.setProp ("lineWidth")
          (match thickness with
            | none => PropVal.str ("1")
            | some t => PropVal.num t),
         Instr.setProp ("lineCap") (capValue ("butt") STROKE_CAPS_MAP caps),
         Instr.setProp ("lineJoin") (capValue ("miter") STROKE_JOINTS_MAP joints),
         Instr.setProp ("miterLimit")
          (match miterLimit with
            | none => PropVal.str ("10")
            | some q => PropVal.num q)]) }

/-- Runs a recorded call sequence from a given state. -/
def applyOps (ops : List RecOp) (g : Graphics) : Graphics :=
  ops.foldl applyOp g

/-- Recorded context path calls. -/
def isPathInstr : Instr → Bool
  | Instr.moveTo _ _ => true
  | Instr.lineTo _ _ => true
  | Instr.arcTo _ _ _ _ _ => true
  | Instr.arc _ _ _ _ _ _ => true
  | Instr.quadraticCurveTo _ _ _ _ => true
  | Instr.bezierCurveTo _ _ _ _ _ _ => true
  | Instr.rect _ _ _ _ => true
  | Instr.closePath => true
  | _ => false

/-- Fill-style instructions (`fillStyle` setters). -/
def isFillStyleInstr : Instr → Bool
  | Instr.setProp n _ => n = "fillStyle"
  | _ => false

/-- Stroke-style instructions (`strokeStyle` setters). -/
def isStrokeColorInstr : Instr → Bool
  | Instr.setProp n _ => n = "strokeStyle"
  | _ => false

/-- Stroke-appearance instructions (width/cap/join/miter setters). -/
def isStrokeAppearanceInstr : Instr → Bool
  | Instr.setProp n _ =>
    n = "lineWidth" || n = "lineCap" || n = "lineJoin" || n = "miterLimit"
  | _ => false

/-- The four logical instruction groups hold instructions of their kind. -/
def StateInv (g : Graphics) : Prop :=
  (∀ l, g.fillInstructions = some l → ∀ i ∈ l, isFillStyleInstr i = true) ∧
  (∀ l, g.strokeInstructions = some l → ∀ i ∈ l, isStrokeColorInstr i = true) ∧
  (∀ l, g.strokeStyleInstructions = some l → ∀ i ∈ l, isStrokeAppearanceInstr i = true) ∧
  (∀ i ∈ g.activeInstructions, isPathInstr i = true)

lemma clear_stateInv : StateInv clear := by
  refine ⟨?_, ?_, ?_, ?_⟩ <;> intro l hl <;> simp [clear] at hl

lemma ifNewPath_fill (g : Graphics) :
    (if g.active then newPath g else g).fillInstructions = g.fillInstructions := by
  by_cases ha : g.active <;> cases hd : g.dirty <;> simp [ha, newPath, hd]

lemma ifNewPath_stroke (g : Graphics) :
    (if g.active then newPath g else g).strokeInstructions = g.strokeInstructions := by
  by_cases ha : g.active <;> cases hd : g.dirty <;> simp [ha, newPath, hd]

lemma ifNewPath_strokeStyle (g : Graphics) :
    (if g.active then newPath g else g).strokeStyleInstructions =
      g.strokeStyleInstructions := by
  by_cases ha : g.active <;> cases hd : g.dirty <;> simp [ha, newPath, hd]

lemma ifNewPath_activeMem (g : Graphics) (i : Instr) :
    i ∈ (if g.active then newPath g else g).activeInstructions →
      i ∈ g.activeInstructions := by
  by_cases ha : g.active <;> cases hd : g.dirty <;> simp [ha, newPath, hd]

lemma applyOp_stateInv (g : Graphics) (op : RecOp) (h : StateInv g) :
    StateInv (applyOp g op) := by
  obtain ⟨h1, h2, h3, h4⟩ := h
  have hpath : ∀ (ins : Instr), isPathInstr ins = true →
      (∀ i ∈ g.activeInstructions ++ [ins], isPathInstr i = true) := by
    intro ins hins i hi
    rcases List.mem_append.mp hi with hi' | hi'
    · exact h4 i hi'
    · rw [List.mem_singleton.mp hi']
      exact hins
  cases op with
  | moveTo x y => exact ⟨h1, h2, h3, hpath _ rfl⟩
  | lineTo x y => exact ⟨h1, h2, h3, hpath _ rfl⟩
  | arcTo x1 y1 x2 y2 radius => exact ⟨h1, h2, h3, hpath _ rfl⟩
  | arc x y radius startAngle endAngle anticlockwise => exact ⟨h1, h2, h3, hpath _ rfl⟩
  | quadraticCurveTo cpx cpy x y => exact ⟨h1, h2, h3, hpath _ rfl⟩
  | bezierCurveTo c1x c1y c2x c2y x y => exact ⟨h1, h2, h3, hpath _ rfl⟩
  | rect x y w h => exact ⟨h1, h2, h3, hpath _ rfl⟩
  | closePath =>
    cases ha : g.active with
    | false => simpa [applyOp, ha] using ⟨h1, h2, h3, h4⟩
    | true =>
      simp only [applyOp, ha, if_true]
      exact ⟨h1, h2, h3, hpath _ rfl⟩
  | beginFill color =>
    refine ⟨?_, ?_, ?_, ?_⟩
    · intro l hl i hi
      simp only [applyOp] at hl
      by_cases hc : jsTruthyStr color
      · rw [if_pos hc] at hl
        cases hl
        rw [List.mem_singleton.mp hi]
        rfl
      · rw [if_neg hc] at hl
        cases hl
    · intro l hl
      simp only [applyOp, ifNewPath_stroke] at hl
      exact h2 l hl
    · intro l hl
      simp only [applyOp, ifNewPath_strokeStyle] at hl
      exact h3 l hl
    · intro i hi
      simp only [applyOp] at hi
      exact h4 i (ifNewPath_activeMem g i hi)
  | beginLinearGradientFill cs rs x0 y0 x1 y1 =>
    refine ⟨?_, ?_, ?_, ?_⟩
    · intro l hl i hi
      simp only [applyOp] at hl
      cases hl
      rw [List.mem_singleton.mp hi]
      rfl
    · intro l hl
      simp only [applyOp, ifNewPath_stroke] at hl
      exact h2 l hl
    · intro l hl
      simp only [applyOp, ifNewPath_strokeStyle] at hl
      exact h3 l hl
    · intro i hi
      simp only [applyOp] at hi
      exact h4 i (ifNewPath_activeMem g i hi)
  | beginRadialGradientFill cs rs x0 y0 r0 x1 y1 r1 =>
    refine ⟨?_, ?_, ?_, ?_⟩
    · intro l hl i hi
      simp only [applyOp] at hl
      cases hl
      rw [List.mem_singleton.mp hi]
      rfl
    · intro l hl
      simp only [applyOp, ifNewPath_stroke] at hl
      exact h2 l hl
    · intro l hl
      simp only [applyOp, ifNewPath_strokeStyle] at hl
      exact h3 l hl
    · intro i hi
      simp only [applyOp] at hi
      exact h4 i (ifNewPath_activeMem g i hi)
  | beginBitmapFill image repetition =>
    refine ⟨?_, ?_, ?_, ?_⟩
    · intro l hl i hi
      simp only [applyOp] at hl
      cases hl
      rw [List.mem_singleton.mp hi]
      rfl
    · intro l hl
      simp only [applyOp, ifNewPath_stroke] at hl
      exact h2 l hl
    · intro l hl
      simp only [applyOp, ifNewPath_strokeStyle] at hl
      exact h3 l hl
    · intro i hi
      simp only [applyOp] at hi
      exact h4 i (ifNewPath_activeMem g i hi)
  | endFill =>
    refine ⟨?_, ?_, ?_, ?_⟩
    · intro l hl
      simp only [applyOp] at hl
      cases hl
    · intro l hl
      simp only [applyOp, ifNewPath_stroke] at hl
      exact h2 l hl
    · intro l hl
      simp only [applyOp, ifNewPath_strokeStyle] at hl
      exact h3 l hl
    · intro i hi
      simp only [applyOp] at hi
      exact h4 i (ifNewPath_activeMem g i hi)
  | beginStroke color =>
    refine ⟨?_, ?_, ?_, ?_⟩
    · intro l hl
      simp only [applyOp, ifNewPath_fill] at hl
      exact h1 l hl
    · intro l hl i hi
      simp only [applyOp] at hl
      by_cases hc : jsTruthyStr color
      · rw [if_pos hc] at hl
        cases hl
        rw [List.mem_singleton.mp hi]
        rfl
      · rw [if_neg hc] at hl
        cases hl
    · intro l hl
      simp only [applyOp, ifNewPath_strokeStyle] at hl
      exact h3 l hl
    · intro i hi
      simp only [applyOp] at hi
      exact h4 i (ifNewPath_activeMem g i hi)
  | beginLinearGradientStroke cs rs x0 y0 x1 y1 =>
    refine ⟨?_, ?_, ?_, ?_⟩
    · intro l hl
      simp only [applyOp, ifNewPath_fill] at hl
      exact h1 l hl
    · intro l hl i hi
      simp only [applyOp] at hl
      cases hl
      rw [List.mem_singleton.mp hi]
      rfl
    · intro l hl
      simp only [applyOp, ifNewPath_strokeStyle] at hl
      exact h3 l hl
    · intro i hi
      simp only [applyOp] at hi
      exact h4 i (ifNewPath_activeMem g i hi)
  | beginRadialGradientStroke cs rs x0 y0 r0 x1 y1 r1 =>
    refine ⟨?_, ?_, ?_, ?_⟩
    · intro l hl
      simp only [applyOp, ifNewPath_fill] at hl
      exact h1 l hl
    · intro l hl i hi
      simp only [applyOp] at hl
      cases hl
      rw [List.mem_singleton.mp hi]
      rfl
    · intro l hl
      simp only [applyOp, ifNewPath_strokeStyle] at hl
      exact h3 l hl
    · intro i hi
      simp only [applyOp] at hi
      exact h4 i (ifNewPath_activeMem g i hi)
  | beginBitmapStroke image repetition =>
    refine ⟨?_, ?_, ?_, ?_⟩
    · intro l hl
      simp only [applyOp, ifNewPath_fill] at hl
      exact h1 l hl
    · intro l hl i hi
      simp only [applyOp] at hl
      cases hl
      rw [List.mem_singleton.mp hi]
      rfl
    · intro l hl
      simp only [applyOp, ifNewPath_strokeStyle] at hl
      exact h3 l hl
    · intro i hi
      simp only [applyOp] at hi
      exact h4 i (ifNewPath_activeMem g i hi)
  | endStroke =>
    refine ⟨?_, ?_, ?_, ?_⟩
    · intro l hl
      simp only [applyOp, ifNewPath_fill] at hl
      exact h1 l hl
    · intro l hl
      simp only [applyOp] at hl
      cases hl
    · intro l hl
      simp only [applyOp, ifNewPath_strokeStyle] at hl
      exact h3 l hl
    · intro i hi
      simp only [applyOp] at hi
      exact h4 i (ifNewPath_activeMem g i hi)
  | setStrokeStyle thickness caps joints miterLimit =>
    refine ⟨?_, ?_, ?_, ?_⟩
    · intro l hl
      simp only [applyOp, ifNewPath_fill] at hl
      exact h1 l hl
    · intro l hl
      simp only [applyOp, ifNewPath_stroke] at hl
      exact h2 l hl
    · intro l hl i hi
      simp only [applyOp] at hl
      cases hl
      fin_cases hi <;> rfl
    · intro i hi
      simp only [applyOp] at hi
      exact h4 i (ifNewPath_activeMem g i hi)

lemma applyOps_stateInv : ∀ (ops : List RecOp) (g : Graphics),
    StateInv g → StateInv (applyOps ops g) := by
  intro ops
  induction ops with
  | nil => intro g h; exact h
  | cons op rest ih =>
    intro g h
    exact ih (applyOp g op) (applyOp_stateInv g op h)

/-- The calls that set a style (and hence run `_newPath` when `_active`). -/
def isStyleOp : RecOp → Bool
  | RecOp.beginFill _ => true
  | RecOp.beginLinearGradientFill _ _ _ _ _ _ => true
  | RecOp.beginRadialGradientFill _ _ _ _ _ _ _ _ => true
  | RecOp.beginBitmapFill _ _ => true
  | RecOp.endFill => true
  | RecOp.beginStroke _ => true
  | RecOp.beginLinearGradientStroke _ _ _ _ _ _ => true
  | RecOp.beginRadialGradientStroke _ _ _ _ _ _ _ _ => true
  | RecOp.beginBitmapStroke _ _ => true
  | RecOp.endStroke => true
  | RecOp.setStrokeStyle _ _ _ _ => true
  | _ => false

/-- The calls that set `_active` (`moveTo` and `closePath` do not). -/
def setsActive : RecOp → Bool
  | RecOp.lineTo _ _ => true
  | RecOp.arcTo _ _ _ _ _ => true
  | RecOp.arc _ _ _ _ _ _ => true
  | RecOp.quadraticCurveTo _ _ _ _ => true
  | RecOp.bezierCurveTo _ _ _ _ _ _ => true
  | RecOp.rect _ _ _ _ => true
  | _ => false

/-- Simulates the `_active` flag and checks that no call in the sequence
triggers `_newPath` — i.e. the whole recording stays within one subpath. -/
def noNewPathAux : Bool → List RecOp → Bool
  | _, [] => true
  | act, op :: rest =>
    if isStyleOp op then
      if act then false else noNewPathAux act rest
    else noNewPathAux (act || setsActive op) rest

/-- A recording confined to a single subpath (style calls only happen while
no path command has been recorded yet). -/
def oneSubpath (ops : List RecOp) : Bool :=
  noNewPathAux false ops

lemma styleOp_not_setsActive (op : RecOp) (h : isStyleOp op = true) :
    setsActive op = false := by
  cases op <;> first | rfl | (exact absurd h (by simp [isStyleOp]))

lemma applyOp_no_newPath (g : Graphics) (op : RecOp)
    (h : isStyleOp op = true → g.active = false) :
    (applyOp g op).active = (g.active || setsActive op) ∧
    (applyOp g op).oldInstructions = g.oldInstructions := by
  cases op with
  | moveTo x y => simp [applyOp, setsActive]
  | lineTo x y => simp [applyOp, setsActive]
  | arcTo x1 y1 x2 y2 radius => simp [applyOp, setsActive]
  | arc x y radius startAngle endAngle anticlockwise => simp [applyOp, setsActive]
  | quadraticCurveTo cpx cpy x y => simp [applyOp, setsActive]
  | bezierCurveTo c1x c1y c2x c2y x y => simp [applyOp, setsActive]
  | rect x y w h => simp [applyOp, setsActive]
  | closePath => cases ha : g.active <;> simp [applyOp, ha, setsActive]
  | beginFill color => simp [applyOp, h rfl, setsActive]
  | beginLinearGradientFill cs rs x0 y0 x1 y1 => simp [applyOp, h rfl, setsActive]
  | beginRadialGradientFill cs rs x0 y0 r0 x1 y1 r1 => simp [applyOp, h rfl, setsActive]
  | beginBitmapFill image repetition => simp [applyOp, h rfl, setsActive]
  | endFill => simp [applyOp, h rfl, setsActive]
  | beginStroke color => simp [applyOp, h rfl, setsActive]
  | beginLinearGradientStroke cs rs x0 y0 x1 y1 => simp [applyOp, h rfl, setsActive]
  | beginRadialGradientStroke cs rs x0 y0 r0 x1 y1 r1 => simp [applyOp, h rfl, setsActive]
  | beginBitmapStroke image repetition => simp [applyOp, h rfl, setsActive]
  | endStroke => simp [applyOp, h rfl, setsActive]
  | setStrokeStyle thickness caps joints miterLimit => simp [applyOp, h rfl, setsActive]

lemma applyOps_no_newPath : ∀ (ops : List RecOp) (g : Graphics),
    noNewPathAux g.active ops = true →
    (applyOps ops g).oldInstructions = g.oldInstructions := by
  intro ops
  induction ops with
  | nil => intro g _; rfl
  | cons op rest ih =>
    intro g hno
    rw [noNewPathAux] at hno
    by_cases hs : isStyleOp op = true
    · rw [if_pos hs] at hno
      have hact : g.active = false := by
        cases hga : g.active
        · rfl
        · rw [hga, if_pos rfl] at hno
          cases hno
      rw [hact, if_neg (by simp)] at hno
      obtain ⟨ha1, ha2⟩ := applyOp_no_newPath g op (fun _ => hact)
      have hrest : noNewPathAux (applyOp g op).active rest = true := by
        rw [ha1, hact, styleOp_not_setsActive op hs]
        exact hno
      show (applyOps rest (applyOp g op)).oldInstructions = g.oldInstructions
      rw [ih (applyOp g op) hrest, ha2]
    · rw [if_neg hs] at hno
      obtain ⟨ha1, ha2⟩ := applyOp_no_newPath g op (fun hcon => absurd hcon hs)
      have hrest : noNewPathAux (applyOp g op).active rest = true := by
        rw [ha1]
        exact hno
      show (applyOps rest (applyOp g op)).oldInstructions = g.oldInstructions
      rw [ih (applyOp g op) hrest, ha2]

/-- C4: for any single-subpath recording, the replay list rebuilt by
`_updateInstructions` is begin-path first, then fill-style instructions,
then stroke-style instructions, then stroke-appearance instructions, then
the recorded path instructions, then the fill command iff a fill style is
set, then the stroke command iff a stroke style is set — and `draw`
executes exactly this rebuilt list when the buffer is dirty. -/
theorem graphics_replay_order (ops : List RecOp) (h : oneSubpath ops = true) :
    ∃ fillL strokeL strokeAppL,
      updateInstructions (applyOps ops clear) =
        [Instr.beginPath] ++ fillL ++ strokeL ++ strokeAppL ++
          (applyOps ops clear).activeInstructions ++
          (if (applyOps ops clear).fillInstructions.isSome then [Instr.fill] else []) ++
          (if (applyOps ops clear).strokeInstructions.isSome then [Instr.stroke] else []) ∧
      (∀ i ∈ fillL, isFillStyleInstr i = true) ∧
      (∀ i ∈ strokeL, isStrokeColorInstr i = true) ∧
      (∀ i ∈ strokeAppL, isStrokeAppearanceInstr i = true) ∧
      (∀ i ∈ (applyOps ops clear).activeInstructions, isPathInstr i = true) ∧
      ((applyOps ops clear).dirty = true →
        (draw (applyOps ops clear)).2 = updateInstructions (applyOps ops clear)) := by
  obtain ⟨h1, h2, h3, h4⟩ := applyOps_stateInv ops clear clear_stateInv
  have hold : (applyOps ops clear).oldInstructions = [] :=
    applyOps_no_newPath ops clear h
  refine ⟨(applyOps ops clear).fillInstructions.getD [],
    (applyOps ops clear).strokeInstructions.getD [],
    (if (applyOps ops clear).strokeInstructions.isSome then
      (applyOps ops clear).strokeStyleInstructions.getD [] else []),
    ?_, ?_, ?_, ?_, h4, ?_⟩
  · unfold updateInstructions
    rw [hold]
    cases hs : (applyOps ops clear).strokeInstructions <;> simp [hs]
  · intro i hi
    cases hf : (applyOps ops clear).fillInstructions with
    | none => simp [hf] at hi
    | some l =>
      rw [hf] at hi
      exact h1 l hf i (by simpa using hi)
  · intro i hi
    cases hs : (applyOps ops clear).strokeInstructions with
    | none => simp [hs] at hi
    | some l =>
      rw [hs] at hi
      exact h2 l hs i (by simpa using hi)
  · intro i hi
    by_cases hb : (applyOps ops clear).strokeInstructions.isSome
    · rw [if_pos hb] at hi
      cases hss : (applyOps ops clear).strokeStyleInstructions with
      | none => simp [hss] at hi
      | some l =>
        rw [hss] at hi
        exact h3 l hss i (by simpa using hi)
    · rw [if_neg hb] at hi
      cases hi
  · intro hd
    simp [draw, hd]

/-- A concrete single-subpath recording for the C4 witness: stroke style,
stroke colour, fill colour, then a path. -/
def ops0 : List RecOp :=
  [RecOp.setStrokeStyle (some 1) none none none,
   RecOp.beginStroke (some ("black")),
   RecOp.beginFill (some ("red")),
   RecOp.moveTo 0 0,
   RecOp.lineTo 10 10,
   RecOp.closePath]

/-- Witness for C4 at the recording `ops0`. -/
theorem graphics_replay_order_witness :
    oneSubpath ops0 = true ∧
    (∃ fillL strokeL strokeAppL,
      updateInstructions (applyOps ops0 clear) =
        [Instr.beginPath] ++ fillL ++ strokeL ++ strokeAppL ++
          (applyOps ops0 clear).activeInstructions ++
          (if (applyOps ops0 clear).fillInstructions.isSome then [Instr.fill] else []) ++
          (if (applyOps ops0 clear).strokeInstructions.isSome then [Instr.stroke] else []) ∧
      (∀ i ∈ fillL, isFillStyleInstr i = true) ∧
      (∀ i ∈ strokeL, isStrokeColorInstr i = true) ∧
      (∀ i ∈ strokeAppL, isStrokeAppearanceInstr i = true) ∧
      (∀ i ∈ (applyOps ops0 clear).activeInstructions, isPathInstr i = true) ∧
      ((applyOps ops0 clear).dirty = true →
        (draw (applyOps ops0 clear)).2 = updateInstructions (applyOps ops0 clear))) :=
  ⟨by decide, graphics_replay_order ops0 (by decide)⟩

end Gfx

namespace Seq

/-- The third slot of a `frameData` sequence entry (`data[2]`): absent
(null/undefined — the sequence loops onto itself), the literal `false`
(stop), or the name of the next sequence. -/
inductive NextSpec where
  | absent
  | stop
  | name (s : String)
deriving DecidableEq

/-- One `frameData` entry: a plain number (named frame) or a sequence array
`[startFrame, endFrame?, next?]`. -/
inductive FrameDatum where
  | frameD (n : ℤ)
  | seqD (startF : ℤ) (endF : Option ℤ) (next : NextSpec)
deriving DecidableEq

/-- The `easel.SpriteSheet` resource consumed by a BitmapSequence: image
pixel dimensions, frame dimensions, optional totalFrames, loop flag and the
optional named-sequence table. -/
structure SpriteSheet where
  imageWidth : ℤ
  imageHeight : ℤ
  frameWidth : ℤ
  frameHeight : ℤ
  totalFrames : Option ℤ
  loop : Bool
  frameData : Option (String → FrameDatum)

/-- The playhead state of `easel.BitmapSequence`
(src/easeljs/display/BitmapSequence.js). `callback` records whether a
callback function is registered; `currentStartFrame` is initialized to JS
`null` but every claim-relevant path assigns it a number, so it is modelled
as an integer. -/
structure BitmapSequence where
  spriteSheet : SpriteSheet
  currentFrame : ℤ
  currentSequence : Option String
  currentStartFrame : ℤ
  currentEndFrame : Option ℤ
  nextSequence : Option String
  paused : Bool
  callback : Bool
  advanceFrequency : ℤ
  advanceOffset : ℤ
  advanceCount : ℤ

/-- `this.spriteSheet.totalFrames || cols*rows` with
`cols = image.width/frameWidth|0` and `rows = image.height/frameHeight|0`
(`|0` truncates toward zero; 0/undefined totalFrames are falsy). -/
def ttlFrames (s : BitmapSequence) : ℤ :=
  let cols := Int.tdiv s.spriteSheet.imageWidth s.spriteSheet.frameWidth
  let rows := Int.tdiv s.spriteSheet.imageHeight s.spriteSheet.frameHeight
  match s.spriteSheet.totalFrames with
  | some t => if t ≠ 0 then t else cols * rows
  | none => cols * rows

/-- `easel.BitmapSequence.prototype._goto` for a (non-numeric) sequence
name: same-sequence rewind, sequence-array entry, or named-frame entry.
Modelled for sheets whose `frameData` is set and contains the name (a JS
lookup on a null table would throw, and a missing name would NaN the
playhead). -/
def gotoName (s : BitmapSequence) (nm : String) : BitmapSequence :=
  if s.currentSequence = some nm then
    { s with currentFrame := s.currentStartFrame }
  else
    match s.spriteSheet.frameData with
    | none => s
    | some fd =>
      match fd nm with
      | FrameDatum.seqD startF endF next =>
        { s with
          currentFrame := startF,
          currentStartFrame := startF,
          currentSequence := some nm,
          currentEndFrame := some (endF.getD startF),
          nextSequence :=
            match next with
            | NextSpec.absent => some nm
            | NextSpec.stop => none
            | NextSpec.name s2 => some s2 }
      | FrameDatum.frameD n =>
        { s with
          currentSequence := none,
          nextSequence := none,
          currentEndFrame := some n,
          currentFrame := n,
          currentStartFrame := n }

/-- `easel.BitmapSequence.prototype._normalizeCurrentFrame` (lines 306-336):
sequence mode wraps past `currentEndFrame` into the next sequence or clamps
and pauses; simple mode wraps past the total frame count to 0 when the
sheet loops, else clamps to the last frame and pauses; the callback fires
in every overflow branch. The second component counts callback
invocations. -/
def normalizeCurrentFrame (s : BitmapSequence) : BitmapSequence × ℕ :=
  match s.currentEndFrame with
  | some endF =>
    if s.currentFrame > endF then
      let s1 :=
        if jsTruthyStr s.nextSequence then gotoName s (s.nextSequence.getD (""))
        else { s with paused := true, currentFrame := endF }
      (s1, if s1.callback then 1 else 0)
    else (s, 0)
  | none =>
    if s.currentFrame ≥ ttlFrames s then
      let s1 :=
        if s.spriteSheet.loop then { s with currentFrame := 0 }
        else { s with currentFrame := ttlFrames s - 1, paused := true }
      (s1, if s1.callback then 1 else 0)
    else (s, 0)

/-- `easel.BitmapSequence.prototype.advance` (lines 263-265): the body is
exactly `this.currentFrame++` — no pause check, no cadence, no
normalization and no callback (hence the invocation count 0). -/
def advance (s : BitmapSequence) : BitmapSequence × ℕ :=
  ({ s with currentFrame := s.currentFrame + 1 }, 0)

/-- `easel.BitmapSequence.prototype._tick` (lines 290-299): pause a fresh
sequence-sheet instance, then — unless paused — bump the advance counter
and, when the cadence `(count+offset) % frequency == 0` fires, advance the
frame and normalize. -/
def tick (s : BitmapSequence) : BitmapSequence × ℕ :=
  let s0 :=
    if s.currentFrame = -1 ∧ s.spriteSheet.frameData.isSome then
      { s with paused := true }
    else s
  if s0.paused then (s0, 0)
  else
    let s1 := { s0 with advanceCount := s0.advanceCount + 1 }
    if Int.tmod (s1.advanceCount + s1.advanceOffset) s1.advanceFrequency = 0 then
      normalizeCurrentFrame { s1 with currentFrame := s1.currentFrame + 1 }
    else (s1, 0)

/-- A 4-frame looping sheet and a sequence parked on its last frame, used
by the C9 existential and the C6 witness. -/
def sheetEdge : SpriteSheet :=
  { imageWidth := 64
    imageHeight := 64
    frameWidth := 16
    frameHeight := 16
    totalFrames := some 4
    loop := true
    frameData := none }

def seqEdge : BitmapSequence :=
  { spriteSheet := sheetEdge
    currentFrame := 3
    currentSequence := none
    currentStartFrame := 0
    currentEndFrame := none
    nextSequence := none
    paused := false
    callback := true
    advanceFrequency := 1
    advanceOffset := 0
    advanceCount := 0 }

/-- C9: a direct `advance()` call increments `currentFrame` by exactly one,
unconditionally — ignoring `paused` and the cadence fields, performing no
wrap/clamp normalization and invoking no callback — so the frame can land
outside the valid range; no other field changes. -/
theorem advance_increments_only (s : BitmapSequence) :
    (advance s).1.currentFrame = s.currentFrame + 1 ∧
    (advance s).2 = 0 ∧
    (advance s).1.paused = s.paused ∧
    (advance s).1.advanceCount = s.advanceCount ∧
    (advance s).1.advanceFrequency = s.advanceFrequency ∧
    (advance s).1.advanceOffset = s.advanceOffset ∧
    (advance s).1.currentSequence = s.currentSequence ∧
    (advance s).1.currentStartFrame = s.currentStartFrame ∧
    (advance s).1.currentEndFrame = s.currentEndFrame ∧
    (advance s).1.nextSequence = s.nextSequence ∧
    (advance s).1.callback = s.callback ∧
    (advance s).1.spriteSheet = s.spriteSheet ∧
    (∃ s2 : BitmapSequence,
      (0 ≤ s2.currentFrame ∧ s2.currentFrame < ttlFrames s2) ∧
      ¬((advance s2).1.currentFrame < ttlFrames (advance s2).1)) := by
  refine ⟨rfl, rfl, rfl, rfl, rfl, rfl, rfl, rfl, rfl, rfl, rfl, rfl,
    seqEdge, by decide, by decide⟩

lemma normalize_simple_overflow (s : BitmapSequence)
    (hseq : s.currentEndFrame = none) (hge : s.currentFrame ≥ ttlFrames s) :
    (s.spriteSheet.loop = true →
      (normalizeCurrentFrame s).1.currentFrame = 0) ∧
    (s.spriteSheet.loop = false →
      (normalizeCurrentFrame s).1.currentFrame = ttlFrames s - 1 ∧
      (normalizeCurrentFrame s).1.paused = true) ∧
    (normalizeCurrentFrame s).2 = (if s.callback then 1 else 0) := by
  unfold normalizeCurrentFrame
  simp only [hseq]
  rw [if_pos hge]
  cases hl : s.spriteSheet.loop with
  | true =>
    rw [if_pos rfl]
    refine ⟨fun _ => rfl, fun hcon => ?_, rfl⟩
    cases hcon
  | false =>
    rw [if_neg Bool.false_ne_true]
    refine ⟨fun hcon => ?_, fun _ => ⟨rfl, rfl⟩, rfl⟩
    cases hcon

lemma tick_advances (s : BitmapSequence)
    (hne : ¬(s.currentFrame = -1 ∧ s.spriteSheet.frameData.isSome))
    (hp : s.paused = false) (hf : s.advanceFrequency = 1) :
    tick s = normalizeCurrentFrame { s with
      advanceCount := s.advanceCount + 1,
      currentFrame := s.currentFrame + 1 } := by
  unfold tick
  rw [if_neg hne, if_neg (by rw [hp]; exact Bool.false_ne_true), hf,
    if_pos (Int.tmod_one _)]

/-- C6: in simple mode (`currentEndFrame = null`), once `currentFrame`
reaches the total frame count, normalization wraps to 0 for a looping sheet
and otherwise clamps to the last frame and pauses, invoking the callback in
both branches; concretely, a looping 4-frame sequence at frame 3 with a
registered callback lands on frame 0 after one tick-driven advance with the
callback invoked exactly once. -/
theorem simple_mode_advance (s : BitmapSequence) :
    (s.currentEndFrame = none → s.currentFrame ≥ ttlFrames s →
      ((s.spriteSheet.loop = true →
        (normalizeCurrentFrame s).1.currentFrame = 0) ∧
       (s.spriteSheet.loop = false →
        (normalizeCurrentFrame s).1.currentFrame = ttlFrames s - 1 ∧
        (normalizeCurrentFrame s).1.paused = true) ∧
       (normalizeCurrentFrame s).2 = (if s.callback then 1 else 0))) ∧
    (s.currentEndFrame = none → s.spriteSheet.totalFrames = some 4 →
      s.spriteSheet.loop = true → s.currentFrame = 3 → s.callback = true →
      s.paused = false → s.advanceFrequency = 1 → s.advanceOffset = 0 →
      (tick s).1.currentFrame = 0 ∧ (tick s).2 = 1) := by
  constructor
  · intro hseq hge
    exact normalize_simple_overflow s hseq hge
  · intro hseq htf hl hcf hcb hp hf _ho
    have hne : ¬(s.currentFrame = -1 ∧ s.spriteSheet.frameData.isSome) := by
      rw [hcf]
      intro hcon
      cases hcon.1
    rw [tick_advances s hne hp hf]
    have httl : ttlFrames { s with
        advanceCount := s.advanceCount + 1,
        currentFrame := s.currentFrame + 1 } = 4 := by
      unfold ttlFrames
      dsimp only
      rw [htf]
      norm_num
    have hge2 : ({ s with
        advanceCount := s.advanceCount + 1,
        currentFrame := s.currentFrame + 1 } : BitmapSequence).currentFrame ≥
        ttlFrames { s with
          advanceCount := s.advanceCount + 1,
          currentFrame := s.currentFrame + 1 } := by
      rw [httl]
      show s.currentFrame + 1 ≥ 4
      rw [hcf]
      norm_num
    obtain ⟨hA, _, hC⟩ := normalize_simple_overflow
      { s with advanceCount := s.advanceCount + 1, currentFrame := s.currentFrame + 1 }
      hseq hge2
    refine ⟨hA hl, ?_⟩
    rw [hC]
    show (if s.callback = true then 1 else 0) = 1
    rw [hcb]
    rfl

/-- Witness for C6: the concrete 4-frame looping sequence `seqEdge` at frame
3, and the general wrap applied to it one frame later. -/
theorem simple_mode_advance_witness :
    ((tick seqEdge).1.currentFrame = 0 ∧ (tick seqEdge).2 = 1) ∧
    ((normalizeCurrentFrame { seqEdge with currentFrame := 4 }).1.currentFrame = 0 ∧
     (normalizeCurrentFrame { seqEdge with currentFrame := 4 }).2 = 1) := by
  constructor
  · exact (simple_mode_advance seqEdge).2 rfl rfl rfl rfl rfl rfl rfl rfl
  · obtain ⟨h1, _, h3⟩ := (simple_mode_advance { seqEdge with currentFrame := 4 }).1
      rfl (by decide)
    exact ⟨h1 rfl, by rw [h3]; decide⟩

end Seq

namespace Hit

/-- A display object as seen by the hit-test traversal: the DisplayObject
fields that `isVisible`/`_getObjectsUnderPoint` read, with the external
pixel probe (`draw` + `_testHit` on the shared 1×1 canvas at the fixed query
point) abstracted into the `hit` bit of a leaf and the `cacheHit` quick-test
outcome of a cached Group (`none` = no cacheCanvas). `contentOk` stands for
the leaf's content-ready conjuncts of its `isVisible`. -/
inductive DObj where
  | leaf (visible : Bool) (alpha : ℚ) (scaleX scaleY : ℚ) (mouseEnabled : Bool)
      (contentOk : Bool) (hit : Bool)
  | group (visible : Bool) (alpha : ℚ) (scaleX scaleY : ℚ) (mouseEnabled : Bool)
      (cacheHit : Option Bool) (children : List DObj)

/-- The `mouseEnabled` flag. -/
def mouseEnabled : DObj → Bool
  | DObj.leaf _ _ _ _ me _ _ => me
  | DObj.group _ _ _ _ me _ _ => me

/-- `isVisible`: for leaves, `visible && alpha > 0 && scaleX != 0 &&
scaleY != 0` plus the content-ready conjuncts; Containers additionally
require a non-empty child list (Container.js line 87). -/
def isVisible : DObj → Bool
  | DObj.leaf v a sx sy _ cok _ =>
    v && decide (0 < a) && decide (sx ≠ 0) && decide (sy ≠ 0) && cok
  | DObj.group v a sx sy _ _ ch =>
    v && decide (0 < a) && decide (ch.length ≠ 0) && decide (sx ≠ 0) && decide (sy ≠ 0)

mutual

/-- `easel.Container.prototype._getObjectsUnderPoint` (Container.js lines
365-418) as invoked from `getObjectsUnderPoint` (an `arr` is supplied and
`mouseEvents` is undefined, so `hasHandler` is false everywhere): a missed
cached quick-test returns nothing, otherwise the children are probed in
reverse order, skipping `!child.isVisible() || !child.mouseEnabled`,
recursing into Containers and pushing every hit leaf. The returned list is
the order in which nodes are pushed into `arr`. -/
def underPoint : DObj → List DObj
  | DObj.leaf _ _ _ _ _ _ _ => []
  | DObj.group _ _ _ _ _ cacheHit ch =>
    match cacheHit with
    | some false => []
    | _ => underPointListRev ch

/-- The `for (var i=l-1; i>=0; i--)` child loop: later children (higher
indices) contribute first. -/
def underPointListRev : List DObj → List DObj
  | [] => []
  | c :: cs =>
    underPointListRev cs ++
      (if (!(isVisible c) || !(mouseEnabled c)) then []
       else
         match c with
         | DObj.group _ _ _ _ _ _ _ => underPoint c
         | DObj.leaf _ _ _ _ _ _ h => if h then [c] else [])

end

mutual

/-- `_getObjectsUnderPoint` as invoked from `getObjectUnderPoint` (no `arr`):
`none` models the JS `null` return; a missed cached quick-test returns the
empty array (which is truthy in JS and therefore short-circuits a parent's
loop). -/
def underPointFirst : DObj → Option (List DObj)
  | DObj.leaf _ _ _ _ _ _ _ => none
  | DObj.group _ _ _ _ _ cacheHit ch =>
    match cacheHit with
    | some false => some []
    | _ => firstRev ch

/-- The reverse-order child loop of the no-`arr` variant: a non-null result
of a later child is returned at once (`if (!arr && result) return result`). -/
def firstRev : List DObj → Option (List DObj)
  | [] => none
  | c :: cs =>
    match firstRev cs with
    | some r => some r
    | none =>
      if (!(isVisible c) || !(mouseEnabled c)) then none
      else
        match c with
        | DObj.group _ _ _ _ _ _ _ => underPointFirst c
        | DObj.leaf _ _ _ _ _ _ h => if h then some [c] else none

end

/-- `easel.Container.prototype.getObjectsUnderPoint` (lines 296-301). -/
def getObjectsUnderPoint (g : DObj) : List DObj :=
  underPoint g

/-- `easel.Container.prototype.getObjectUnderPoint` (lines 310-313):
`this._getObjectsUnderPoint(pt.x, pt.y)[0] || null`. The outer `none`
models the TypeError JS raises for `null[0]` when nothing is hit. -/
def getObjectUnderPoint (g : DObj) : Option (Option DObj) :=
  match underPointFirst g with
  | none => none
  | some r => some r.head?

mutual

/-- The nodes painted below a node by `Container.prototype.draw` (lines
100-131): each child failing `isVisible()` is skipped, but `mouseEnabled`
is not consulted. -/
def paintedNodes : DObj → List DObj
  | DObj.leaf _ _ _ _ _ _ _ => []
  | DObj.group _ _ _ _ _ _ ch => paintedList ch

/-- The `for (var i=0; i<l; i++)` paint loop (back-to-front). -/
def paintedList : List DObj → List DObj
  | [] => []
  | c :: cs => (if isVisible c then c :: paintedNodes c else []) ++ paintedList cs

end

lemma skip_cond_false {d : DObj} (hv : isVisible d = true) (hm : mouseEnabled d = true) :
    (!(isVisible d) || !(mouseEnabled d)) = false := by
  rw [hv, hm]
  rfl

mutual

theorem underPoint_mem : ∀ (g c : DObj), c ∈ underPoint g →
    isVisible c = true ∧ mouseEnabled c = true
  | DObj.leaf _ _ _ _ _ _ _, c, hc => by simp [underPoint] at hc
  | DObj.group v a sx sy me chit ch, c, hc => by
    match chit with
    | none => exact underPointListRev_mem ch c hc
    | some true => exact underPointListRev_mem ch c hc
    | some false => simp [underPoint] at hc

theorem underPointListRev_mem : ∀ (l : List DObj) (c : DObj), c ∈ underPointListRev l →
    isVisible c = true ∧ mouseEnabled c = true
  | [], c, hc => by simp [underPointListRev] at hc
  | d :: ds, c, hc => by
    rw [underPointListRev.eq_def] at hc
    dsimp only at hc
    rcases List.mem_append.mp hc with h1 | h2
    · exact underPointListRev_mem ds c h1
    · by_cases hv : isVisible d = true
      · by_cases hm : mouseEnabled d = true
        · rw [skip_cond_false hv hm, if_neg Bool.false_ne_true] at h2
          match d, hv, hm, h2 with
          | DObj.group v a sx sy me chit ch2, hv, hm, h2 =>
            exact underPoint_mem (DObj.group v a sx sy me chit ch2) c h2
          | DObj.leaf v a sx sy me cok h, hv, hm, h2 => 
            dsimp only at h2
            by_cases hh : h = true
            · rw [if_pos hh] at h2
              rw [List.mem_singleton.mp h2]
              exact ⟨hv, hm⟩
            · rw [if_neg hh] at h2
              cases h2
        · have hcond : (!(isVisible d) || !(mouseEnabled d)) = true := by
            rw [Bool.or_eq_true]
            right
            rw [Bool.not_eq_true' ]
            rw [Bool.eq_false_iff]
            exact hm
          rw [hcond, if_pos rfl] at h2
          cases h2
      · have hcond : (!(isVisible d) || !(mouseEnabled d)) = true := by
          rw [Bool.or_eq_true]
          left
          rw [Bool.not_eq_true' ]
          rw [Bool.eq_false_iff]
          exact hv
        rw [hcond, if_pos rfl] at h2
        cases h2

end

lemma firstRev_cons (c : DObj) (cs : List DObj) :
    firstRev (c :: cs) =
      match firstRev cs with
      | some r => some r
      | none =>
        if (!(isVisible c) || !(mouseEnabled c)) then none
        else
          match c with
          | DObj.group _ _ _ _ _ _ _ => underPointFirst c
          | DObj.leaf _ _ _ _ _ _ h => if h then some [c] else none := rfl

mutual

theorem underPointFirst_mem : ∀ (g : DObj) (r : List DObj) (c : DObj),
    underPointFirst g = some r → c ∈ r →
    isVisible c = true ∧ mouseEnabled c = true
  | DObj.leaf _ _ _ _ _ _ _, r, c, hr, hc => by simp [underPointFirst] at hr
  | DObj.group v a sx sy me chit ch, r, c, hr, hc => by
    match chit with
    | none => exact firstRev_mem ch r c hr hc
    | some true => exact firstRev_mem ch r c hr hc
    | some false =>
      simp [underPointFirst] at hr
      rw [hr] at hc
      cases hc

theorem firstRev_mem : ∀ (l : List DObj) (r : List DObj) (c : DObj),
    firstRev l = some r → c ∈ r →
    isVisible c = true ∧ mouseEnabled c = true
  | [], r, c, hr, hc => by simp [firstRev] at hr
  | d :: ds, r, c, hr, hc => by
    rw [firstRev_cons] at hr
    cases hrec : firstRev ds with
    | some r2 =>
      rw [hrec] at hr
      exact firstRev_mem ds r c (hrec.trans hr) hc
    | none =>
      rw [hrec] at hr
      dsimp only at hr
      by_cases hv : isVisible d = true
      · by_cases hm : mouseEnabled d = true
        · rw [skip_cond_false hv hm, if_neg Bool.false_ne_true] at hr
          match d, hv, hm, hr with
          | DObj.group v a sx sy me chit ch2, hv, hm, hr =>
            exact underPointFirst_mem (DObj.group v a sx sy me chit ch2) r c hr hc
          | DObj.leaf v a sx sy me cok h, hv, hm, hr =>
            dsimp only at hr
            by_cases hh : h = true
            · rw [if_pos hh] at hr
              have hrr : [DObj.leaf v a sx sy me cok h] = r := Option.some_inj.mp hr
              rw [← hrr] at hc
              rw [List.mem_singleton.mp hc]
              exact ⟨hv, hm⟩
            · rw [if_neg hh] at hr
              cases hr
        · have hcond : (!(isVisible d) || !(mouseEnabled d)) = true := by
            rw [Bool.or_eq_true]
            right
            rw [Bool.not_eq_true', Bool.eq_false_iff]
            exact hm
          rw [hcond, if_pos rfl] at hr
          cases hr
      · have hcond : (!(isVisible d) || !(mouseEnabled d)) = true := by
          rw [Bool.or_eq_true]
          left
          rw [Bool.not_eq_true', Bool.eq_false_iff]
          exact hv
        rw [hcond, if_pos rfl] at hr
        cases hr

end

/-- A visible, hittable leaf with `mouseEnabled = false`, and its parent
Group: painted by `draw` but invisible to point queries. -/
def egLeaf : DObj := DObj.leaf true 1 1 1 false true true

def egGroup : DObj := DObj.group true 1 1 1 true none [egLeaf]

/-- C10: point queries never return a child that is not mouse-enabled or
not visible — every node in a `getObjectsUnderPoint` result, and any node
returned by `getObjectUnderPoint`, satisfies both flags — while `draw`
still paints a visible child whose `mouseEnabled` is false, so a node can
be on screen yet unreachable by point queries. -/
theorem point_queries_skip_disabled :
    (∀ g c, c ∈ getObjectsUnderPoint g → isVisible c = true ∧ mouseEnabled c = true) ∧
    (∀ g c, getObjectUnderPoint g = some (some c) →
      isVisible c = true ∧ mouseEnabled c = true) ∧
    (paintedNodes egGroup = [egLeaf] ∧ isVisible egLeaf = true ∧
      mouseEnabled egLeaf = false ∧ getObjectsUnderPoint egGroup = []) := by
  refine ⟨?_, ?_, ?_, ?_, ?_, ?_⟩
  · intro g c hc
    exact underPoint_mem g c hc
  · intro g c hc
    unfold getObjectUnderPoint at hc
    cases hg : underPointFirst g with
    | none => rw [hg] at hc; cases hc
    | some r =>
      rw [hg] at hc
      have hr : r.head? = some c := Option.some_inj.mp hc
      exact underPointFirst_mem g r c hg (List.mem_of_mem_head? (Option.mem_def.mpr hr))
  · rfl
  · rfl
  · rfl
  · rfl

/-- Witness for C10: a visible, enabled, hittable leaf inside a Group is
returned by both queries and indeed satisfies both flags. -/
def okLeaf : DObj := DObj.leaf true 1 1 1 true true true

def okGroup : DObj := DObj.group true 1 1 1 true none [okLeaf]

theorem point_queries_skip_disabled_witness :
    (okLeaf ∈ getObjectsUnderPoint okGroup ∧
      isVisible okLeaf = true ∧ mouseEnabled okLeaf = true) ∧
    (getObjectUnderPoint okGroup = some (some okLeaf) ∧
      isVisible okLeaf = true ∧ mouseEnabled okLeaf = true) := by
  have hmem : okLeaf ∈ getObjectsUnderPoint okGroup := by
    have : getObjectsUnderPoint okGroup = [okLeaf] := rfl
    rw [this]
    exact List.mem_singleton.mpr rfl
  have hone : getObjectUnderPoint okGroup = some (some okLeaf) := rfl
  refine ⟨⟨hmem, ?_⟩, hone, point_queries_skip_disabled.2.1 okGroup okLeaf hone⟩
  exact point_queries_skip_disabled.1 okGroup okLeaf hmem

end Hit

end Easel
